import Mathlib

/-! Isilon docker volume plugin: the volume lifecycle driver.

A shallow embedding of `driver/driver.go`: the registry `map[string]*volume`, the
mount path derivation and the five lifecycle operations `Create`, `Remove`, `Path`,
`Mount` and `Unmount`.

The operations run under one mutex, so they are modelled as sequential state
transformers.  Every call to an external collaborator (the REST client, the
filesystem, the `mount`/`umount` commands) is recorded in a trace of `Call`s, and
what the collaborator answers is an input of the operation (`Outcomes`).
-/

namespace IsilonDriver

/-! ## Path derivation: `filepath.Join` and `filepath.Clean` (Unix) -/

/-- The constant `mountPath` of `driver.go`. -/
def mountPath : String := "/var/lib/isilon/volumes/"

/-- The `..` case of `filepath.Clean` when it can backtrack: `out.w--`, then keep
decrementing while `out.w > dotdot` and the byte at `out.w` is no separator.  The
buffer is held reversed, so its head is the last byte written. -/
def cleanBacktrack (dotdot : Nat) : List Char → List Char
  | [] => []
  | c :: rest =>
    if dotdot < rest.length ∧ c ≠ '/' then cleanBacktrack dotdot rest else rest

/-- The main loop of `filepath.Clean`: `path` is the input still to be read
(`path[r:]`), `out` the reversed output buffer (`out.w` is its length), `dotdot` the
index where `..` must stop.  Each round consumes at least one byte, so a fuel of
the input length is enough. -/
def cleanLoop (rooted : Bool) : Nat → List Char → List Char → Nat → List Char
  | 0, _, out, _ => out
  | _ + 1, [], out, _ => out
  | fuel + 1, c :: rest, out, dotdot =>
    if c = '/' then
      -- empty path element
      cleanLoop rooted fuel rest out dotdot
    else if c = '.' ∧ (rest = [] ∨ rest.head? = some '/') then
      -- . element
      cleanLoop rooted fuel rest out dotdot
    else if c = '.' ∧ rest.head? = some '.' ∧
        (rest.tail = [] ∨ rest.tail.head? = some '/') then
      -- .. element: remove to last separator
      if dotdot < out.length then
        cleanLoop rooted fuel rest.tail (cleanBacktrack dotdot out) dotdot
      else if !rooted then
        let out1 := if 0 < out.length then '/' :: out else out
        let out2 := '.' :: '.' :: out1
        cleanLoop rooted fuel rest.tail out2 out2.length
      else
        cleanLoop rooted fuel rest.tail out dotdot
    else
      -- real path element: add slash if needed, then copy the element
      let out1 :=
        if (rooted ∧ out.length ≠ 1) ∨ (!rooted ∧ out.length ≠ 0) then '/' :: out else out
      let elem := (c :: rest).takeWhile (fun x => x ≠ '/')
      cleanLoop rooted fuel ((c :: rest).dropWhile (fun x => x ≠ '/')) (elem.reverse ++ out1) dotdot

/-- Go's `filepath.Clean` on Unix (no volume name, separator `/`).  Go works on
bytes and this on characters; the only bytes `Clean` tests are `/` and `.`, which
never occur inside a multi-byte UTF-8 sequence, and the buffer up to `dotdot` is
ASCII, so every test comes out the same. -/
def Clean (path : String) : String :=
  match path.data with
  | [] => "."
  | c :: rest =>
    let rooted : Bool := c = '/'
    let out := if rooted then
        cleanLoop true (c :: rest).length rest ['/'] 1
      else
        cleanLoop false (c :: rest).length (c :: rest) [] 0
    if out = [] then "." else String.mk out.reverse

/-- Go's `filepath.Join` for two elements on Unix: the non-empty elements from the
first non-empty one on are joined with `/` and the result is cleaned; with no
non-empty element the result is empty. -/
def Join (a b : String) : String :=
  if a ≠ "" then Clean (a ++ "/" ++ b)
  else if b ≠ "" then Clean b
  else ""

/-! ## Data model -/

/-- Go's `int` as the driver is built for 64-bit platforms: the integers from
`-2^63` to `2^63 - 1`.  (On a 32-bit build the bounds are `-2^31` and `2^31 - 1`.) -/
structure GoInt where
  val : Int
  inRange : -9223372036854775808 ≤ val ∧ val ≤ 9223372036854775807
  deriving DecidableEq, Repr

/-- Two's complement wrap-around of an integer into the range of `int`, as Go's
arithmetic on `int` does on overflow. -/
def wrapInt (x : Int) : Int :=
  (x + 9223372036854775808) % 18446744073709551616 - 9223372036854775808

/-- The `int` that an integer wraps to; an integer in range is itself. -/
def GoInt.ofInt (x : Int) : GoInt :=
  ⟨wrapInt x, by unfold wrapInt; omega⟩

/-- The statement `c++` on an `int`. -/
def GoInt.succ (c : GoInt) : GoInt :=
  GoInt.ofInt (c.val + 1)

/-- The statement `c--` on an `int`. -/
def GoInt.pred (c : GoInt) : GoInt :=
  GoInt.ofInt (c.val - 1)

/-- The struct `volume`. -/
structure volume where
  name : String
  connections : GoInt
  deriving DecidableEq, Repr

/-- The Go map `map[string]*volume`, as an association list with unique keys.  No
pointer stored in the map is shared with another key, so a volume is held by value
and a mutation through the pointer is a replacement at its key. -/
abbrev Registry := List (String × volume)

/-- The lookup `m[k]` with its `ok` flag. -/
def mapIndex : Registry → String → Option volume
  | [], _ => none
  | (k1, v) :: t, k => if k1 = k then some v else mapIndex t k

/-- The assignment `m[k] = v`: replaces the value at `k` or adds the key. -/
def mapAssign : Registry → String → volume → Registry
  | [], k, v => [(k, v)]
  | (k1, v1) :: t, k, v => if k1 = k then (k, v) :: t else (k1, v1) :: mapAssign t k v

/-- The builtin `delete(m, k)`. -/
def mapDelete : Registry → String → Registry
  | [], _ => []
  | (k1, v1) :: t, k => if k1 = k then mapDelete t k else (k1, v1) :: mapDelete t k

/-- The struct `isiDriver`, without the REST client handle and the mutex. -/
structure isiDriver where
  clusterPath : String
  volumes : Registry
  deriving DecidableEq, Repr

/-- The function `NewIsilonDriver`: an empty registry. -/
def NewIsilonDriver (addr : String) : isiDriver :=
  { clusterPath := addr ++ ":/ifs/data/docker/volumes/", volumes := [] }

/-- The request `dkvolume.Request`. -/
structure Request where
  Name : String
  deriving DecidableEq, Repr

/-- The response `dkvolume.Response`; the zero value has both fields empty. -/
structure Response where
  Mountpoint : String := ""
  Err : String := ""
  deriving DecidableEq, Repr

/-! ## External collaborators -/

/-- An error of the `os` package (`*os.PathError`): `notExist` is what
`os.IsNotExist` answers for it. -/
structure PathError where
  Op : String
  Path : String
  Err : String
  notExist : Bool
  deriving DecidableEq, Repr

/-- The method `(*PathError).Error`: `Op + " " + Path + ": " + Err.Error()`. -/
def PathError.Error (e : PathError) : String :=
  e.Op ++ " " ++ e.Path ++ ": " ++ e.Err

/-- The function `os.IsNotExist`; it is false on the nil error. -/
def IsNotExist : Option PathError → Bool
  | none => false
  | some e => e.notExist

/-- The `os.FileInfo` as far as the driver reads it. -/
structure FileInfo where
  IsDir : Bool
  deriving DecidableEq, Repr

/-- One call to an external collaborator. -/
inductive Call where
  | CheckVolume (name : String)
  | CreateVolume (name : String)
  | Lstat (path : String)
  | MkdirAll (path : String)
  | MountCmd (nfsPath mountpoint : String)
  | UmountCmd (mountpoint : String)
  | RemoveAll (path : String)
  deriving DecidableEq, Repr

/-- What the external collaborators answer during one lifecycle call, should they
be called.  An error that the driver only logs or tests against nil is its text. -/
structure Outcomes where
  checkVolume : Bool × Option String
  createVolume : Option String
  lstat : Option FileInfo × Option PathError
  mkdirAll : Option PathError
  mountRun : Option String
  umountRun : Option String
  removeAll : Option PathError
  deriving DecidableEq, Repr

/-- The result of one lifecycle call: the response, the driver state after it and
the external calls it made, in order. -/
structure Result where
  resp : Response
  d : isiDriver
  calls : List Call
  deriving DecidableEq, Repr

/-! ## The lifecycle operations -/

/-- The method `isiDriver.mountpoint`. -/
def isiDriver.mountpoint (_d : isiDriver) (name : String) : String :=
  Join mountPath name

/-- The method `isiDriver.Create`. -/
def isiDriver.Create (d : isiDriver) (req : Request) (o : Outcomes) : Result :=
  let mountpoint := d.mountpoint req.Name
  match mapIndex d.volumes mountpoint with
  | some _ => ⟨{}, d, []⟩
  | none =>
    match o.checkVolume with
    | (_, some _) => ⟨{ Err := "Failed to create volume" }, d, [.CheckVolume req.Name]⟩
    | (exist, none) =>
      if !exist then
        match o.createVolume with
        | some _ =>
          ⟨{ Err := "Failed to create volume" }, d,
            [.CheckVolume req.Name, .CreateVolume req.Name]⟩
        | none => ⟨{}, d, [.CheckVolume req.Name, .CreateVolume req.Name]⟩
      else ⟨{}, d, [.CheckVolume req.Name]⟩

/-- The method `isiDriver.Remove`. -/
def isiDriver.Remove (d : isiDriver) (req : Request) (o : Outcomes) : Result :=
  let mountpoint := d.mountpoint req.Name
  match mapIndex d.volumes mountpoint with
  | some vol =>
    if vol.connections.val > 1 then
      ⟨{ Err := "Volume in use by other containers" }, d, []⟩
    else
      let d1 := { d with volumes := mapDelete d.volumes mountpoint }
      match o.removeAll with
      | some err => ⟨{ Err := err.Error }, d1, [.RemoveAll mountpoint]⟩
      | none => ⟨{}, d1, [.RemoveAll mountpoint]⟩
  | none => ⟨{}, d, []⟩

/-- The method `isiDriver.Path`. -/
def isiDriver.Path (d : isiDriver) (req : Request) : Result :=
  ⟨{ Mountpoint := d.mountpoint req.Name }, d, []⟩

/-- The end of `isiDriver.Mount`, from the `fi != nil && !fi.IsDir()` test on;
`calls` are the filesystem calls made before it. -/
def isiDriver.mountChecked (d : isiDriver) (req : Request) (o : Outcomes)
    (calls : List Call) : Result :=
  let mountpoint := d.mountpoint req.Name
  let notDir : Bool := match o.lstat.1 with
    | some fi => !fi.IsDir
    | none => false
  if notDir then
    ⟨{ Err := mountpoint ++ " already exist and it's not a directory" }, d, calls⟩
  else
    let nfsPath := d.clusterPath ++ req.Name
    match o.mountRun with
    | some _ =>
      ⟨{ Err := "Failed to mount volume" }, d, calls ++ [.MountCmd nfsPath mountpoint]⟩
    | none =>
      ⟨{ Mountpoint := mountpoint },
        { d with volumes := mapAssign d.volumes mountpoint ⟨req.Name, GoInt.ofInt 1⟩ },
        calls ++ [.MountCmd nfsPath mountpoint]⟩

/-- The part of `isiDriver.Mount` after the fast path: `os.Lstat`, `os.MkdirAll`
when nothing exists, then the mount itself. -/
def isiDriver.mountFresh (d : isiDriver) (req : Request) (o : Outcomes) : Result :=
  let mountpoint := d.mountpoint req.Name
  if IsNotExist o.lstat.2 then
    match o.mkdirAll with
    | some err => ⟨{ Err := err.Error }, d, [.Lstat mountpoint, .MkdirAll mountpoint]⟩
    | none => d.mountChecked req o [.Lstat mountpoint, .MkdirAll mountpoint]
  else
    match o.lstat.2 with
    | some err => ⟨{ Err := err.Error }, d, [.Lstat mountpoint]⟩
    | none => d.mountChecked req o [.Lstat mountpoint]

/-- The method `isiDriver.Mount`. -/
def isiDriver.Mount (d : isiDriver) (req : Request) (o : Outcomes) : Result :=
  let mountpoint := d.mountpoint req.Name
  match mapIndex d.volumes mountpoint with
  | some vol =>
    if vol.connections.val > 0 then
      ⟨{ Mountpoint := mountpoint },
        { d with volumes :=
            mapAssign d.volumes mountpoint { vol with connections := vol.connections.succ } },
        []⟩
    else d.mountFresh req o
  | none => d.mountFresh req o

/-- The method `isiDriver.Unmount`. -/
def isiDriver.Unmount (d : isiDriver) (req : Request) (o : Outcomes) : Result :=
  let mountpoint := d.mountpoint req.Name
  match mapIndex d.volumes mountpoint with
  | some vol =>
    let vol1 := { vol with connections := vol.connections.pred }
    let d1 := { d with volumes := mapAssign d.volumes mountpoint vol1 }
    if vol.connections.val = 1 then
      match o.umountRun with
      | some _ => ⟨{ Err := "Failed to unmount volume" }, d, [.UmountCmd mountpoint]⟩
      | none => ⟨{}, d1, [.UmountCmd mountpoint]⟩
    else ⟨{}, d1, []⟩
  | none => ⟨{ Err := "Unable to find volume mounted on " ++ mountpoint }, d, []⟩

/-! ## Sequences of lifecycle calls -/

/-- The five lifecycle operations of the volume driver interface. -/
inductive Op where
  | Create
  | Remove
  | Path
  | Mount
  | Unmount
  deriving DecidableEq, Repr

/-- One lifecycle call: the operation, the volume name of its request and what the
external collaborators answer during it. -/
structure Invocation where
  op : Op
  name : String
  o : Outcomes
  deriving DecidableEq, Repr

/-- Dispatch of one lifecycle call to its method. -/
def isiDriver.step (d : isiDriver) (i : Invocation) : Result :=
  match i.op with
  | .Create => d.Create ⟨i.name⟩ i.o
  | .Remove => d.Remove ⟨i.name⟩ i.o
  | .Path => d.Path ⟨i.name⟩
  | .Mount => d.Mount ⟨i.name⟩ i.o
  | .Unmount => d.Unmount ⟨i.name⟩ i.o

/-- What a sequence of lifecycle calls leaves: the final driver state, the
responses and all external calls, in order. -/
structure Run where
  d : isiDriver
  resps : List Response
  calls : List Call
  deriving DecidableEq, Repr

/-- The calls of a list processed one after the other, as the mutex forces. -/
def isiDriver.run : isiDriver → List Invocation → Run
  | d, [] => ⟨d, [], []⟩
  | d, i :: rest =>
    let r := d.step i
    let R := isiDriver.run r.d rest
    ⟨R.d, r.resp :: R.resps, r.calls ++ R.calls⟩

/-- The driver states reachable from a new driver by lifecycle calls. -/
inductive Reachable : isiDriver → Prop where
  | init (addr : String) : Reachable (NewIsilonDriver addr)
  | step {d : isiDriver} (i : Invocation) : Reachable d → Reachable (d.step i).d

/-- Whether a call is an execution of the `mount` command. -/
def Call.isMountCmd : Call → Bool
  | .MountCmd _ _ => true
  | _ => false

/-- Collaborators that all succeed, on a mount path that is already a directory. -/
def outcomesOk : Outcomes :=
  { checkVolume := (true, none), createVolume := none, lstat := (some ⟨true⟩, none),
    mkdirAll := none, mountRun := none, umountRun := none, removeAll := none }

/-! ## The remote volume service -/

/-- Modelled from the spec: the remote volume service behind `rest.Client`, whose
source is not part of `driver.go`.  The spec gives it the two operations
`exists(name) -> (bool, error)` and `create(name) -> error`; its state is the set
of volume names that exist on the cluster. -/
structure Remote where
  names : List String
  deriving DecidableEq, Repr

/-- Modelled from the spec: `exists(name) -> (bool, error)` of the remote volume
service.  With a fault (a transport or service error) the query fails, otherwise
it tells whether the volume exists. -/
def Remote.CheckVolume (r : Remote) (fault : Option String) (name : String) :
    Bool × Option String :=
  match fault with
  | some e => (false, some e)
  | none => (decide (name ∈ r.names), none)

/-- Modelled from the spec: `create(name) -> error` of the remote volume service.
With a fault nothing is created, otherwise the volume exists afterwards. -/
def Remote.CreateVolume (r : Remote) (fault : Option String) (name : String) :
    Remote × Option String :=
  match fault with
  | some e => (r, some e)
  | none => (⟨name :: r.names⟩, none)

/-- The method `isiDriver.Create` run against the remote volume service `r`: the
answers of `CheckVolume` and `CreateVolume` come from the service, and the service
state changes when `Create` did call `CreateVolume`. -/
def isiDriver.CreateOn (d : isiDriver) (r : Remote) (req : Request)
    (checkFault createFault : Option String) : Result × Remote :=
  let created := r.CreateVolume createFault req.Name
  let res := d.Create req
    { outcomesOk with
      checkVolume := r.CheckVolume checkFault req.Name, createVolume := created.2 }
  (res, if Call.CreateVolume req.Name ∈ res.calls then created.1 else r)

/-! ## Plain volume names -/

/-- The elements of a path: the pieces between its `/` separators. -/
def pathElements : List Char → List (List Char)
  | [] => [[]]
  | c :: rest =>
    if c = '/' then [] :: pathElements rest
    else
      match pathElements rest with
      | [] => [[c]]
      | e :: es => (c :: e) :: es

/-- A plain volume name: every element between its separators is a real path
element, neither empty nor `.` nor `..`.  So the name is not empty, has no leading,
trailing or doubled `/`, and names a path below the directory it is joined to. -/
def plainName (name : String) : Bool :=
  (pathElements name.data).all (fun e => e ≠ [] ∧ e ≠ ['.'] ∧ e ≠ ['.', '.'])

/-! ## Resolving a volume name against the base directory -/

/-- The directories of `mountPath`, outermost first. -/
def mountPathDirs : List (List Char) :=
  ["var".data, "lib".data, "isilon".data, "volumes".data]

/-- Resolving one path element from the directory reached so far, given by its
directories below the root, outermost first: an empty element and `.` stay, `..`
goes up one directory (and stays at the root), any other element goes down into
the directory of that name. -/
def resolveElement (dirs : List (List Char)) (e : List Char) : List (List Char) :=
  if e = [] ∨ e = ['.'] then dirs
  else if e = ['.', '.'] then dirs.dropLast
  else dirs ++ [e]

/-- The directory that a volume name leads to from the base directory: its
elements resolved one after the other, starting in `/var/lib/isilon/volumes`. -/
def resolveName (name : String) : List (List Char) :=
  (pathElements name.data).foldl resolveElement mountPathDirs

/-- A name that resolves below the base directory: the directory it leads to is
`/var/lib/isilon/volumes` followed by at least one more directory. -/
def belowMountPath (name : String) : Bool :=
  decide (mountPathDirs <+: resolveName name ∧ resolveName name ≠ mountPathDirs)

/-- The text of an absolute path with these directories, without the root alone:
each directory after a `/`. -/
def renderDirs : List (List Char) → List Char
  | [] => []
  | e :: t => '/' :: e ++ renderDirs t

/-- The output buffer of `Clean` (held reversed) once it has written the path with
these directories: the root alone is `/`. -/
def cleanBuffer (dirs : List (List Char)) : List Char :=
  if dirs = [] then ['/'] else (renderDirs dirs).reverse

/-! ## Lemmas on the registry -/

theorem mapIndex_mapAssign_same (m : Registry) (k : String) (v : volume) :
    mapIndex (mapAssign m k v) k = some v := by
  induction m with
  | nil => simp [mapAssign, mapIndex]
  | cons hd t ih =>
    obtain ⟨k1, v1⟩ := hd
    by_cases h : k1 = k
    · simp [mapAssign, mapIndex, h]
    · simp [mapAssign, mapIndex, h, ih]

theorem mapIndex_mapAssign_other (m : Registry) (k k2 : String) (v : volume) (hk : k2 ≠ k) :
    mapIndex (mapAssign m k v) k2 = mapIndex m k2 := by
  induction m with
  | nil => simp [mapAssign, mapIndex, Ne.symm hk]
  | cons hd t ih =>
    obtain ⟨k1, v1⟩ := hd
    by_cases h : k1 = k
    · subst h
      simp [mapAssign, mapIndex, Ne.symm hk]
    · by_cases h2 : k1 = k2
      · subst h2
        simp [mapAssign, mapIndex, h]
      · simp [mapAssign, mapIndex, h, h2, ih]

theorem mapIndex_mapDelete_same (m : Registry) (k : String) :
    mapIndex (mapDelete m k) k = none := by
  induction m with
  | nil => simp [mapDelete, mapIndex]
  | cons hd t ih =>
    obtain ⟨k1, v1⟩ := hd
    by_cases h : k1 = k
    · simp [mapDelete, h, ih]
    · simp [mapDelete, mapIndex, h, ih]

theorem mapIndex_mapDelete_other (m : Registry) (k k2 : String) (hk : k2 ≠ k) :
    mapIndex (mapDelete m k) k2 = mapIndex m k2 := by
  induction m with
  | nil => simp [mapDelete, mapIndex]
  | cons hd t ih =>
    obtain ⟨k1, v1⟩ := hd
    by_cases h : k1 = k
    · subst h
      simp [mapDelete, mapIndex, Ne.symm hk, ih]
    · by_cases h2 : k1 = k2
      · subst h2
        simp [mapDelete, mapIndex, h]
      · simp [mapDelete, mapIndex, h, h2, ih]

/-! ## Lemmas on `int` arithmetic -/

theorem wrapInt_of_inRange (x : Int)
    (h : -9223372036854775808 ≤ x ∧ x ≤ 9223372036854775807) : wrapInt x = x := by
  unfold wrapInt
  omega

theorem GoInt.eq_of_val_eq {a b : GoInt} (h : a.val = b.val) : a = b := by
  cases a
  cases b
  simp only at h
  subst h
  rfl

theorem GoInt.ofInt_val (x : Int)
    (h : -9223372036854775808 ≤ x ∧ x ≤ 9223372036854775807) : (GoInt.ofInt x).val = x :=
  wrapInt_of_inRange x h

theorem GoInt.ofInt_val_self (c : GoInt) : GoInt.ofInt c.val = c :=
  GoInt.eq_of_val_eq (wrapInt_of_inRange c.val c.inRange)

/-- Below the largest `int`, `c++` adds one. -/
theorem GoInt.succ_val (c : GoInt) (h : c.val < 9223372036854775807) :
    c.succ.val = c.val + 1 := by
  have := c.inRange
  exact wrapInt_of_inRange _ (by omega)

/-- Above the smallest `int`, `c--` takes one. -/
theorem GoInt.pred_val (c : GoInt) (h : -9223372036854775808 < c.val) :
    c.pred.val = c.val - 1 := by
  have := c.inRange
  exact wrapInt_of_inRange _ (by omega)

/-! ## Lemmas on error texts -/

theorem PathError.Error_ne_empty (e : PathError) : e.Error ≠ "" := by
  intro h
  have h1 := congrArg String.length h
  simp only [PathError.Error, String.length_append] at h1
  have h2 : " ".length = 1 := rfl
  have h3 : "".length = 0 := rfl
  omega

theorem notDirMessage_ne_empty (mp : String) :
    mp ++ " already exist and it's not a directory" ≠ "" := by
  intro h
  have h1 := congrArg String.length h
  simp only [String.length_append] at h1
  have h2 : " already exist and it's not a directory".length = 39 := by decide
  have h3 : "".length = 0 := rfl
  omega

theorem notFoundMessage_ne_empty (mp : String) :
    "Unable to find volume mounted on " ++ mp ≠ "" := by
  intro h
  have h1 := congrArg String.length h
  simp only [String.length_append] at h1
  have h2 : "Unable to find volume mounted on ".length = 33 := by decide
  have h3 : "".length = 0 := rfl
  omega

/-! ## Lemmas on `Mount` -/

theorem mountpoint_eq (d d2 : isiDriver) (name : String) :
    d.mountpoint name = d2.mountpoint name := rfl

/-- The slow path of `Mount` either fails and leaves the driver as it is, or
issues one `mount` command as its last call and registers the volume with one
connection. -/
theorem mountChecked_cases (d : isiDriver) (req : Request) (o : Outcomes) (calls : List Call) :
    ((d.mountChecked req o calls).resp.Err ≠ "" ∧ (d.mountChecked req o calls).d = d) ∨
    (d.mountChecked req o calls =
      ⟨{ Mountpoint := d.mountpoint req.Name },
        { d with volumes := mapAssign d.volumes (d.mountpoint req.Name) ⟨req.Name, GoInt.ofInt 1⟩ },
        calls ++ [.MountCmd (d.clusterPath ++ req.Name) (d.mountpoint req.Name)]⟩) := by
  unfold isiDriver.mountChecked
  simp only
  split
  · left
    exact ⟨notDirMessage_ne_empty _, rfl⟩
  · split
    · left
      exact ⟨by simp, rfl⟩
    · right
      rfl

theorem mountFresh_cases (d : isiDriver) (req : Request) (o : Outcomes) :
    ((d.mountFresh req o).resp.Err ≠ "" ∧ (d.mountFresh req o).d = d) ∨
    (∃ calls, (∀ c ∈ calls, Call.isMountCmd c = false) ∧ d.mountFresh req o =
      ⟨{ Mountpoint := d.mountpoint req.Name },
        { d with volumes := mapAssign d.volumes (d.mountpoint req.Name) ⟨req.Name, GoInt.ofInt 1⟩ },
        calls ++ [.MountCmd (d.clusterPath ++ req.Name) (d.mountpoint req.Name)]⟩) := by
  unfold isiDriver.mountFresh
  simp only
  split
  · split
    · left
      exact ⟨PathError.Error_ne_empty _, rfl⟩
    · rcases mountChecked_cases d req o
        [.Lstat (d.mountpoint req.Name), .MkdirAll (d.mountpoint req.Name)] with h | h
      · left; exact h
      · right
        exact ⟨_, by simp [Call.isMountCmd], h⟩
  · split
    · left
      exact ⟨PathError.Error_ne_empty _, rfl⟩
    · rcases mountChecked_cases d req o [.Lstat (d.mountpoint req.Name)] with h | h
      · left; exact h
      · right
        exact ⟨_, by simp [Call.isMountCmd], h⟩

theorem Mount_hit (d : isiDriver) (name : String) (o : Outcomes) (v : volume)
    (h : mapIndex d.volumes (d.mountpoint name) = some v) (hc : 0 < v.connections.val) :
    d.Mount ⟨name⟩ o =
      ⟨{ Mountpoint := d.mountpoint name },
        { d with volumes :=
            mapAssign d.volumes (d.mountpoint name) ⟨v.name, v.connections.succ⟩ }, []⟩ := by
  unfold isiDriver.Mount
  simp only [h, gt_iff_lt, hc, if_true]

theorem Mount_miss_none (d : isiDriver) (name : String) (o : Outcomes)
    (h : mapIndex d.volumes (d.mountpoint name) = none) :
    d.Mount ⟨name⟩ o = d.mountFresh ⟨name⟩ o := by
  unfold isiDriver.Mount
  simp only [h]

theorem Mount_miss_zero (d : isiDriver) (name : String) (o : Outcomes) (v : volume)
    (h : mapIndex d.volumes (d.mountpoint name) = some v) (hc : v.connections.val ≤ 0) :
    d.Mount ⟨name⟩ o = d.mountFresh ⟨name⟩ o := by
  unfold isiDriver.Mount
  simp only [h, gt_iff_lt, not_lt.mpr hc, if_false]

/-! ## Lemmas on `Unmount`, `Remove` and runs -/

theorem Unmount_ok (d : isiDriver) (name : String) (o : Outcomes) (v : volume)
    (h : mapIndex d.volumes (d.mountpoint name) = some v)
    (hok : (d.Unmount ⟨name⟩ o).resp.Err = "") :
    mapIndex (d.Unmount ⟨name⟩ o).d.volumes (d.mountpoint name) =
      some ⟨v.name, v.connections.pred⟩ := by
  by_cases hc : v.connections.val = 1
  · cases hu : o.umountRun with
    | some e => simp [isiDriver.Unmount, h, hc, hu] at hok
    | none =>
      simp only [isiDriver.Unmount, h, hc, hu, if_true]
      exact mapIndex_mapAssign_same _ _ _
  · simp only [isiDriver.Unmount, h, hc, if_false]
    exact mapIndex_mapAssign_same _ _ _

theorem Unmount_absent (d : isiDriver) (name : String) (o : Outcomes)
    (h : mapIndex d.volumes (d.mountpoint name) = none) :
    d.Unmount ⟨name⟩ o =
      ⟨{ Err := "Unable to find volume mounted on " ++ d.mountpoint name }, d, []⟩ := by
  unfold isiDriver.Unmount
  simp only [h]

theorem Remove_in_use (d : isiDriver) (name : String) (o : Outcomes) (v : volume)
    (h : mapIndex d.volumes (d.mountpoint name) = some v) (hc : 1 < v.connections.val) :
    d.Remove ⟨name⟩ o = ⟨{ Err := "Volume in use by other containers" }, d, []⟩ := by
  unfold isiDriver.Remove
  simp only [h, gt_iff_lt, hc, if_true]

theorem Remove_not_shared (d : isiDriver) (name : String) (o : Outcomes) (v : volume)
    (h : mapIndex d.volumes (d.mountpoint name) = some v) (hc : v.connections.val ≤ 1) :
    (d.Remove ⟨name⟩ o).d = { d with volumes := mapDelete d.volumes (d.mountpoint name) } ∧
    (d.Remove ⟨name⟩ o).calls = [.RemoveAll (d.mountpoint name)] := by
  unfold isiDriver.Remove
  simp only [h, gt_iff_lt, not_lt.mpr hc, if_false]
  split <;> exact ⟨rfl, rfl⟩

theorem reachable_run (d : isiDriver) (is : List Invocation) (h : Reachable d) :
    Reachable (d.run is).d := by
  induction is generalizing d with
  | nil => exact h
  | cons i t ih => exact ih _ (Reachable.step i h)

/-- Mounting a volume that is already mounted only counts: no external call, one
more connection per call as long as the count stays an `int`, and every call
answers the mount path. -/
theorem run_mounts_hit (name : String) (os : List Outcomes) (d : isiDriver) (v : volume)
    (h : mapIndex d.volumes (d.mountpoint name) = some v) (hc : 0 < v.connections.val)
    (hmax : v.connections.val + os.length ≤ 9223372036854775807) :
    mapIndex (d.run (os.map (Invocation.mk .Mount name))).d.volumes (d.mountpoint name) =
        some ⟨v.name, GoInt.ofInt (v.connections.val + os.length)⟩ ∧
      (d.run (os.map (Invocation.mk .Mount name))).calls = [] ∧
      (d.run (os.map (Invocation.mk .Mount name))).resps.length = os.length ∧
      ∀ r ∈ (d.run (os.map (Invocation.mk .Mount name))).resps,
        r = { Mountpoint := d.mountpoint name } := by
  induction os generalizing d v with
  | nil =>
    simp only [List.map_nil, isiDriver.run, List.length_nil, Nat.cast_zero, add_zero,
      GoInt.ofInt_val_self, List.not_mem_nil, false_implies, implies_true, and_true]
    exact h
  | cons o t ih =>
    simp only [List.length_cons, Nat.cast_add, Nat.cast_one] at hmax
    have hm := Mount_hit d name o v h hc
    have hs : v.connections.succ.val = v.connections.val + 1 :=
      GoInt.succ_val _ (by omega)
    have h1 : mapIndex (d.Mount ⟨name⟩ o).d.volumes (d.mountpoint name) =
        some ⟨v.name, v.connections.succ⟩ := by
      rw [hm]
      exact mapIndex_mapAssign_same _ _ _
    obtain ⟨a, b, c, e⟩ := ih (d.Mount ⟨name⟩ o).d ⟨v.name, v.connections.succ⟩ h1
      (by show 0 < v.connections.succ.val; omega)
      (by show v.connections.succ.val + (t.length : Int) ≤ 9223372036854775807; omega)
    simp only [List.map_cons, isiDriver.run, isiDriver.step]
    refine ⟨?_, ?_, ?_, ?_⟩
    · rw [show (d.mountpoint name) = (d.Mount ⟨name⟩ o).d.mountpoint name from rfl, a]
      simp only [List.length_cons, Nat.cast_add, Nat.cast_one, hs]
      congr 3
      omega
    · rw [b, hm]
      rfl
    · simp only [List.length_cons, c]
    · intro r hr
      rcases List.mem_cons.mp hr with hr | hr
      · rw [hr, hm]
      · exact e r hr

/-- A run over two lists of calls is the run over the first, then over the second
from the state the first one left. -/
theorem run_append (d : isiDriver) (is1 is2 : List Invocation) :
    d.run (is1 ++ is2) =
      ⟨((d.run is1).d.run is2).d, (d.run is1).resps ++ ((d.run is1).d.run is2).resps,
        (d.run is1).calls ++ ((d.run is1).d.run is2).calls⟩ := by
  induction is1 generalizing d with
  | nil => simp [isiDriver.run]
  | cons i t ih =>
    rw [List.cons_append]
    simp only [isiDriver.run]
    rw [ih (d.step i).d]
    simp

/-- When the filesystem inspection and the `mount` command succeed, the slow path
of `Mount` succeeds: `Lstat` finds a directory, or reports that nothing exists and
`MkdirAll` creates the directory; then the `mount` command is run and the volume
is registered with one connection. -/
theorem mountFresh_success (d : isiDriver) (req : Request) (o : Outcomes)
    (hfs : o.lstat = (some ⟨true⟩, none) ∨
      (∃ err, o.lstat = (none, some err) ∧ err.notExist = true ∧ o.mkdirAll = none))
    (hmount : o.mountRun = none) :
    d.mountFresh req o =
      ⟨{ Mountpoint := d.mountpoint req.Name },
        { d with volumes :=
            mapAssign d.volumes (d.mountpoint req.Name) ⟨req.Name, GoInt.ofInt 1⟩ },
        (match o.lstat.2 with
          | none => [.Lstat (d.mountpoint req.Name)]
          | some _ => [.Lstat (d.mountpoint req.Name), .MkdirAll (d.mountpoint req.Name)]) ++
          [.MountCmd (d.clusterPath ++ req.Name) (d.mountpoint req.Name)]⟩ := by
  rcases hfs with hdir | ⟨err, hstat, hne, hmk⟩
  · simp [isiDriver.mountFresh, isiDriver.mountChecked, hdir, IsNotExist, hmount]
  · simp [isiDriver.mountFresh, isiDriver.mountChecked, hstat, IsNotExist, hne, hmk, hmount]

/-! ## Reference counting -/

/-- C1: the reference count does go negative.  From a new driver, a successful
`Mount` of `vol1` followed by two `Unmount` calls is a sequence of three successful
calls, and the registry entry it reaches has `connections = -1`: the second
`Unmount` finds the entry with count 0, skips the `umount` command and decrements
all the same. -/
theorem C1_count_negative_after_second_unmount :
    Reachable ((NewIsilonDriver "isilon").run
        [⟨.Mount, "vol1", outcomesOk⟩, ⟨.Unmount, "vol1", outcomesOk⟩,
          ⟨.Unmount, "vol1", outcomesOk⟩]).d ∧
      ((NewIsilonDriver "isilon").run
        [⟨.Mount, "vol1", outcomesOk⟩, ⟨.Unmount, "vol1", outcomesOk⟩,
          ⟨.Unmount, "vol1", outcomesOk⟩]).resps =
        [{ Mountpoint := "/var/lib/isilon/volumes/vol1" }, {}, {}] ∧
      mapIndex ((NewIsilonDriver "isilon").run
        [⟨.Mount, "vol1", outcomesOk⟩, ⟨.Unmount, "vol1", outcomesOk⟩,
          ⟨.Unmount, "vol1", outcomesOk⟩]).d.volumes "/var/lib/isilon/volumes/vol1" =
        some ⟨"vol1", GoInt.ofInt (-1)⟩ ∧
      (GoInt.ofInt (-1)).val = -1 :=
  ⟨reachable_run _ _ (Reachable.init _), by decide, by decide, by decide⟩

/-- C2: the code does not refuse the extra `Unmount`.  For `k = 1`: after one
successful `Mount` and one successful `Unmount` of `vol1` from the empty registry
the entry is still there with count 0; a further `Unmount` answers the empty
response instead of the not-found error, runs no `umount` command and decrements
the count to -1. -/
theorem C2_extra_unmount_is_not_refused :
    ((NewIsilonDriver "isilon").run
        [⟨.Mount, "vol1", outcomesOk⟩, ⟨.Unmount, "vol1", outcomesOk⟩]).resps =
        [{ Mountpoint := "/var/lib/isilon/volumes/vol1" }, {}] ∧
      mapIndex ((NewIsilonDriver "isilon").run
        [⟨.Mount, "vol1", outcomesOk⟩, ⟨.Unmount, "vol1", outcomesOk⟩]).d.volumes
        "/var/lib/isilon/volumes/vol1" = some ⟨"vol1", GoInt.ofInt 0⟩ ∧
      (((NewIsilonDriver "isilon").run
        [⟨.Mount, "vol1", outcomesOk⟩, ⟨.Unmount, "vol1", outcomesOk⟩]).d.Unmount
          ⟨"vol1"⟩ outcomesOk).resp = {} ∧
      (((NewIsilonDriver "isilon").run
        [⟨.Mount, "vol1", outcomesOk⟩, ⟨.Unmount, "vol1", outcomesOk⟩]).d.Unmount
          ⟨"vol1"⟩ outcomesOk).calls = [] ∧
      mapIndex (((NewIsilonDriver "isilon").run
        [⟨.Mount, "vol1", outcomesOk⟩, ⟨.Unmount, "vol1", outcomesOk⟩]).d.Unmount
          ⟨"vol1"⟩ outcomesOk).d.volumes "/var/lib/isilon/volumes/vol1" =
        some ⟨"vol1", GoInt.ofInt (-1)⟩ ∧
      (GoInt.ofInt (-1)).val = -1 := by
  decide

/-! ## Removal of a volume in use -/

/-- C3, as stated, fails at `connections = 1`: the state after one successful
`Mount` of `vol1` is reachable and holds `vol1` with one consumer, and `Remove`
there deletes the registry entry and calls the recursive deletion of the mount
directory. -/
theorem C3_remove_deletes_volume_held_once :
    Reachable ((NewIsilonDriver "isilon").Mount ⟨"vol1"⟩ outcomesOk).d ∧
      mapIndex ((NewIsilonDriver "isilon").Mount ⟨"vol1"⟩ outcomesOk).d.volumes
        "/var/lib/isilon/volumes/vol1" = some ⟨"vol1", GoInt.ofInt 1⟩ ∧
      mapIndex (((NewIsilonDriver "isilon").Mount ⟨"vol1"⟩ outcomesOk).d.Remove
        ⟨"vol1"⟩ outcomesOk).d.volumes "/var/lib/isilon/volumes/vol1" = none ∧
      (((NewIsilonDriver "isilon").Mount ⟨"vol1"⟩ outcomesOk).d.Remove
        ⟨"vol1"⟩ outcomesOk).calls = [.RemoveAll "/var/lib/isilon/volumes/vol1"] :=
  ⟨Reachable.step ⟨.Mount, "vol1", outcomesOk⟩ (Reachable.init "isilon"), by decide,
    by decide, by decide⟩

/-- C3, amended: in every reachable state, for every name whose entry has
`connections ≥ 2` (a consumer besides the one asking), a `Remove` call on that
name neither deletes the registry entry nor invokes the recursive deletion of the
local mount directory. -/
theorem C3_remove_keeps_shared_volume (d : isiDriver) (name : String) (o : Outcomes)
    (v : volume) (_hr : Reachable d)
    (h : mapIndex d.volumes (d.mountpoint name) = some v) (hc : 2 ≤ v.connections.val) :
    mapIndex (d.Remove ⟨name⟩ o).d.volumes (d.mountpoint name) = some v ∧
      Call.RemoveAll (d.mountpoint name) ∉ (d.Remove ⟨name⟩ o).calls := by
  rw [Remove_in_use d name o v h (by omega)]
  exact ⟨h, by simp⟩

/-- C3 amended, in the state after two successful `Mount` calls of `vol1`. -/
theorem C3_remove_keeps_shared_volume_witness :
    mapIndex ((((NewIsilonDriver "isilon").run
        [⟨.Mount, "vol1", outcomesOk⟩, ⟨.Mount, "vol1", outcomesOk⟩]).d).Remove
          ⟨"vol1"⟩ outcomesOk).d.volumes
        ((((NewIsilonDriver "isilon").run
          [⟨.Mount, "vol1", outcomesOk⟩, ⟨.Mount, "vol1", outcomesOk⟩]).d).mountpoint "vol1") =
        some ⟨"vol1", GoInt.ofInt 2⟩ ∧
      Call.RemoveAll ((((NewIsilonDriver "isilon").run
          [⟨.Mount, "vol1", outcomesOk⟩, ⟨.Mount, "vol1", outcomesOk⟩]).d).mountpoint "vol1") ∉
        ((((NewIsilonDriver "isilon").run
          [⟨.Mount, "vol1", outcomesOk⟩, ⟨.Mount, "vol1", outcomesOk⟩]).d).Remove
            ⟨"vol1"⟩ outcomesOk).calls :=
  C3_remove_keeps_shared_volume _ "vol1" outcomesOk ⟨"vol1", GoInt.ofInt 2⟩
    (reachable_run _ _ (Reachable.init "isilon")) (by decide) (by decide)

/-! ## Shared mounts -/

/-- Counting past the largest `int`: a first successful `Mount` of an unknown
name, `2^63 - 2` more and then one more leave the count at `-2^63`; every one of
these calls succeeds, and a `Mount` after them whose collaborators succeed runs
the `mount` command again. -/
theorem run_mounts_wrap (d : isiDriver) (name : String) (o1 o3 o4 : Outcomes)
    (os : List Outcomes)
    (habs : mapIndex d.volumes (d.mountpoint name) = none)
    (hfs1 : o1.lstat = (some ⟨true⟩, none)) (hm1 : o1.mountRun = none)
    (hfs4 : o4.lstat = (some ⟨true⟩, none)) (hm4 : o4.mountRun = none)
    (hlen : (os.length : Int) = 9223372036854775806) :
    (∀ r ∈ (d.run ((o1 :: (os ++ [o3])).map (Invocation.mk .Mount name))).resps,
        r.Err = "") ∧
      mapIndex (d.run ((o1 :: (os ++ [o3])).map (Invocation.mk .Mount name))).d.volumes
        (d.mountpoint name) = some ⟨name, GoInt.ofInt (-9223372036854775808)⟩ ∧
      ∃ c ∈ ((d.run ((o1 :: (os ++ [o3])).map (Invocation.mk .Mount name))).d.Mount
        ⟨name⟩ o4).calls, c.isMountCmd = true := by
  have hone : (GoInt.ofInt 1).val = 1 := by decide
  have hwrap : (GoInt.ofInt 9223372036854775807).succ = GoInt.ofInt (-9223372036854775808) := by
    decide
  have hmaxv : (GoInt.ofInt 9223372036854775807).val = 9223372036854775807 := by decide
  have hminv : (GoInt.ofInt (-9223372036854775808)).val = -9223372036854775808 := by decide
  -- the first call mounts and registers the volume with count 1
  have hfirst : d.Mount ⟨name⟩ o1 =
      ⟨{ Mountpoint := d.mountpoint name },
        { d with volumes := mapAssign d.volumes (d.mountpoint name) ⟨name, GoInt.ofInt 1⟩ },
        [.Lstat (d.mountpoint name), .MountCmd (d.clusterPath ++ name) (d.mountpoint name)]⟩ := by
    rw [Mount_miss_none d name o1 habs, mountFresh_success d ⟨name⟩ o1 (Or.inl hfs1) hm1]
    simp [hfs1]
  -- the next `2^63 - 2` calls count up to the largest `int`
  obtain ⟨a, -, -, e⟩ := run_mounts_hit name os
    { d with volumes := mapAssign d.volumes (d.mountpoint name) ⟨name, GoInt.ofInt 1⟩ }
    ⟨name, GoInt.ofInt 1⟩ (mapIndex_mapAssign_same _ _ _) (by rw [hone]; exact Int.one_pos)
    (by rw [hone, hlen]; decide)
  simp only [hone, hlen, isiDriver.mountpoint] at a e
  rw [show (1 : Int) + 9223372036854775806 = 9223372036854775807 from by decide] at a
  -- the last call wraps the count around
  have hlast := Mount_hit _ name o3 _ a (by rw [hmaxv]; decide)
  simp only [hwrap, isiDriver.mountpoint] at hlast
  simp only [List.map_cons, List.map_append, List.map_nil, isiDriver.run, isiDriver.step,
    run_append, hfirst, isiDriver.mountpoint, hlast]
  refine ⟨?_, mapIndex_mapAssign_same _ _ _, ?_⟩
  · intro r hr
    simp only [List.mem_cons, List.mem_append, List.not_mem_nil, or_false] at hr
    rcases hr with hr | hr | hr
    · rw [hr]
    · rw [e r hr]
    · rw [hr]
  · have hnext : ∀ (d2 : isiDriver) (v : volume),
        mapIndex d2.volumes (d2.mountpoint name) = some v → v.connections.val ≤ 0 →
        ∃ c ∈ (d2.Mount ⟨name⟩ o4).calls, c.isMountCmd = true := by
      intro d2 v h hc
      rw [Mount_miss_zero d2 name o4 v h hc,
        mountFresh_success d2 ⟨name⟩ o4 (Or.inl hfs4) hm4]
      exact ⟨.MountCmd (d2.clusterPath ++ name) (d2.mountpoint name), by simp, rfl⟩
    exact hnext _ ⟨name, GoInt.ofInt (-9223372036854775808)⟩
      (mapIndex_mapAssign_same _ _ _) (by rw [hminv]; decide)

/-- C4, as stated, fails at `n = 2^63`: the count is an `int`.  From a new driver,
`2^63` `Mount` calls of `vol1` all succeed, and the entry they leave has
`connections = -2^63`, not `2^63`: the call after the count `2^63 - 1` wraps it
around.  The `Mount` after that finds a count that is not positive and runs the
`mount` command a second time. -/
theorem C4_count_wraps_after_two_pow_63_mounts :
    (∀ r ∈ ((NewIsilonDriver "isilon").run
        ((List.replicate 9223372036854775808 outcomesOk).map
          (Invocation.mk .Mount "vol1"))).resps, r.Err = "") ∧
      mapIndex ((NewIsilonDriver "isilon").run
        ((List.replicate 9223372036854775808 outcomesOk).map
          (Invocation.mk .Mount "vol1"))).d.volumes
        ((NewIsilonDriver "isilon").mountpoint "vol1") =
        some ⟨"vol1", GoInt.ofInt (-9223372036854775808)⟩ ∧
      (GoInt.ofInt (-9223372036854775808)).val = -9223372036854775808 ∧
      ∃ c ∈ (((NewIsilonDriver "isilon").run
        ((List.replicate 9223372036854775808 outcomesOk).map
          (Invocation.mk .Mount "vol1"))).d.Mount ⟨"vol1"⟩ outcomesOk).calls,
        c.isMountCmd = true := by
  have hsplit : List.replicate 9223372036854775808 outcomesOk =
      outcomesOk :: (List.replicate 9223372036854775806 outcomesOk ++ [outcomesOk]) := by
    rw [show (9223372036854775808 : Nat) = 9223372036854775806 + 1 + 1 from rfl,
      List.replicate_succ, List.replicate_succ']
  rw [hsplit]
  have h := run_mounts_wrap (NewIsilonDriver "isilon") "vol1" outcomesOk outcomesOk outcomesOk
    (List.replicate 9223372036854775806 outcomesOk) rfl rfl rfl rfl rfl
    (by rw [List.length_replicate]; decide)
  exact ⟨h.1, h.2.1, by decide, h.2.2⟩

/-- C4, amended: for every `n` with `1 ≤ n ≤ 2^63 - 1`, the largest `int`, and
every name with no registry entry, `n` `Mount` calls on that name, processed one
after the other and each successful, leave the entry with `connections = n`, run
the `mount` command exactly once in total, and every call answers the mount path
of the name. -/
theorem C4_mounts_share_one_os_mount (d : isiDriver) (name : String) (os : List Outcomes)
    (hn : 1 ≤ os.length) (hmax : os.length ≤ 9223372036854775807)
    (habs : mapIndex d.volumes (d.mountpoint name) = none)
    (hok : ∀ r ∈ (d.run (os.map (Invocation.mk .Mount name))).resps, r.Err = "") :
    mapIndex (d.run (os.map (Invocation.mk .Mount name))).d.volumes (d.mountpoint name) =
        some ⟨name, GoInt.ofInt os.length⟩ ∧
      (GoInt.ofInt os.length).val = os.length ∧
      (d.run (os.map (Invocation.mk .Mount name))).calls.filter Call.isMountCmd =
        [.MountCmd (d.clusterPath ++ name) (d.mountpoint name)] ∧
      (d.run (os.map (Invocation.mk .Mount name))).resps.length = os.length ∧
      ∀ r ∈ (d.run (os.map (Invocation.mk .Mount name))).resps,
        r.Mountpoint = d.mountpoint name := by
  cases os with
  | nil => simp at hn
  | cons o t =>
    have hfirst := Mount_miss_none d name o habs
    have hone : (GoInt.ofInt 1).val = 1 := by decide
    have hlen : ((o :: t).length : Int) = 1 + (t.length : Int) := by
      simp only [List.length_cons, Nat.cast_add, Nat.cast_one]
      omega
    have hmax1 : (1 : Int) + (t.length : Int) ≤ 9223372036854775807 := by
      simp only [List.length_cons] at hmax
      omega
    simp only [List.map_cons, isiDriver.run, isiDriver.step, List.mem_cons,
      forall_eq_or_imp] at hok ⊢
    rcases mountFresh_cases d ⟨name⟩ o with hf | ⟨calls, hcalls, hf⟩
    · rw [hfirst] at hok
      exact absurd hok.1 hf.1
    · rw [hfirst, hf]
      simp only
      have h1 := mapIndex_mapAssign_same d.volumes (d.mountpoint name) ⟨name, GoInt.ofInt 1⟩
      obtain ⟨a, b, c, e⟩ := run_mounts_hit name t
        { clusterPath := d.clusterPath,
          volumes := mapAssign d.volumes (d.mountpoint name) ⟨name, GoInt.ofInt 1⟩ }
        ⟨name, GoInt.ofInt 1⟩ h1 (by rw [hone]; exact Int.one_pos) (by rw [hone]; exact hmax1)
      simp only [isiDriver.mountpoint, hone] at a b c e ⊢
      rw [hlen]
      refine ⟨a, GoInt.ofInt_val _ (by omega), ?_, ?_, trivial, ?_⟩
      · rw [b, List.append_nil, List.filter_append,
          List.filter_eq_nil_iff.mpr (fun c hc => by simp [hcalls c hc])]
        rfl
      · simp only [List.length_cons, c]
      · intro r hr
        rw [e r hr]

/-- C4 amended, at `n = 3` for `vol1`, from a new driver. -/
theorem C4_mounts_share_one_os_mount_witness :
    mapIndex ((NewIsilonDriver "isilon").run
        ([outcomesOk, outcomesOk, outcomesOk].map (Invocation.mk .Mount "vol1"))).d.volumes
        ((NewIsilonDriver "isilon").mountpoint "vol1") =
        some ⟨"vol1", GoInt.ofInt [outcomesOk, outcomesOk, outcomesOk].length⟩ ∧
      (GoInt.ofInt [outcomesOk, outcomesOk, outcomesOk].length).val =
        [outcomesOk, outcomesOk, outcomesOk].length ∧
      ((NewIsilonDriver "isilon").run
        ([outcomesOk, outcomesOk, outcomesOk].map (Invocation.mk .Mount "vol1"))).calls.filter
          Call.isMountCmd =
        [.MountCmd ((NewIsilonDriver "isilon").clusterPath ++ "vol1")
          ((NewIsilonDriver "isilon").mountpoint "vol1")] ∧
      ((NewIsilonDriver "isilon").run
        ([outcomesOk, outcomesOk, outcomesOk].map (Invocation.mk .Mount "vol1"))).resps.length =
        [outcomesOk, outcomesOk, outcomesOk].length ∧
      ∀ r ∈ ((NewIsilonDriver "isilon").run
        ([outcomesOk, outcomesOk, outcomesOk].map (Invocation.mk .Mount "vol1"))).resps,
        r.Mountpoint = (NewIsilonDriver "isilon").mountpoint "vol1" :=
  C4_mounts_share_one_os_mount (NewIsilonDriver "isilon") "vol1"
    [outcomesOk, outcomesOk, outcomesOk] (by decide) (by decide) (by decide) (by decide)

/-! ## `Remove` on a shared volume -/

/-- C5: for every registry and every name whose entry has `connections > 1`,
`Remove` answers the error `Volume in use by other containers`, leaves the driver
state exactly as it was and makes no external call, so no filesystem deletion. -/
theorem C5_remove_refuses_shared_volume (d : isiDriver) (name : String) (o : Outcomes)
    (v : volume) (h : mapIndex d.volumes (d.mountpoint name) = some v)
    (hc : 1 < v.connections.val) :
    (d.Remove ⟨name⟩ o).resp = { Err := "Volume in use by other containers" } ∧
      (d.Remove ⟨name⟩ o).d = d ∧
      (d.Remove ⟨name⟩ o).calls = [] := by
  rw [Remove_in_use d name o v h hc]
  exact ⟨rfl, rfl, rfl⟩

/-- C5 for `vol1` held by two consumers. -/
theorem C5_remove_refuses_shared_volume_witness :
    ((isiDriver.mk "isilon:/ifs/data/docker/volumes/"
        [("/var/lib/isilon/volumes/vol1", ⟨"vol1", GoInt.ofInt 2⟩)]).Remove ⟨"vol1"⟩ outcomesOk).resp =
        { Err := "Volume in use by other containers" } ∧
      ((isiDriver.mk "isilon:/ifs/data/docker/volumes/"
        [("/var/lib/isilon/volumes/vol1", ⟨"vol1", GoInt.ofInt 2⟩)]).Remove ⟨"vol1"⟩ outcomesOk).d =
        isiDriver.mk "isilon:/ifs/data/docker/volumes/"
          [("/var/lib/isilon/volumes/vol1", ⟨"vol1", GoInt.ofInt 2⟩)] ∧
      ((isiDriver.mk "isilon:/ifs/data/docker/volumes/"
        [("/var/lib/isilon/volumes/vol1", ⟨"vol1", GoInt.ofInt 2⟩)]).Remove ⟨"vol1"⟩ outcomesOk).calls = [] :=
  C5_remove_refuses_shared_volume _ "vol1" outcomesOk ⟨"vol1", GoInt.ofInt 2⟩ (by decide) (by decide)

/-! ## `Create` -/

/-- C6, as stated, fails when the first call fails: `vol1` has no registry entry
and does not exist remotely, the existence check of the first `Create` fails, so
that call answers the error without creating anything; the second `Create` in
sequence then finds the volume absent and invokes the remote create operation. -/
theorem C6_second_create_invokes_creation_after_failure :
    mapIndex (NewIsilonDriver "isilon").volumes
        ((NewIsilonDriver "isilon").mountpoint "vol1") = none ∧
      "vol1" ∉ (Remote.mk []).names ∧
      ((NewIsilonDriver "isilon").CreateOn ⟨[]⟩ ⟨"vol1"⟩ (some "timeout") none).1 =
        ⟨{ Err := "Failed to create volume" }, NewIsilonDriver "isilon",
          [.CheckVolume "vol1"]⟩ ∧
      (((NewIsilonDriver "isilon").CreateOn ⟨[]⟩ ⟨"vol1"⟩ (some "timeout") none).1.d.CreateOn
        ((NewIsilonDriver "isilon").CreateOn ⟨[]⟩ ⟨"vol1"⟩ (some "timeout") none).2
        ⟨"vol1"⟩ none none).1.calls = [.CheckVolume "vol1", .CreateVolume "vol1"] := by
  decide

/-- C6, amended: for every name that has no registry entry and does not yet exist
remotely, when `Create` is called twice in sequence on that name and the first
call succeeds, the second call does not invoke the remote service's create
operation, whatever faults the service has during either call. -/
theorem C6_second_create_skips_creation (d : isiDriver) (r : Remote) (name : String)
    (c1 f1 c2 f2 : Option String)
    (habs : mapIndex d.volumes (d.mountpoint name) = none)
    (hnew : name ∉ r.names)
    (hok : (d.CreateOn r ⟨name⟩ c1 f1).1.resp.Err = "") :
    Call.CreateVolume name ∉
      ((d.CreateOn r ⟨name⟩ c1 f1).1.d.CreateOn (d.CreateOn r ⟨name⟩ c1 f1).2
        ⟨name⟩ c2 f2).1.calls := by
  cases c1 with
  | some e =>
    simp [isiDriver.CreateOn, isiDriver.Create, Remote.CheckVolume, habs] at hok
  | none =>
    cases f1 with
    | some e =>
      simp [isiDriver.CreateOn, isiDriver.Create, Remote.CheckVolume, Remote.CreateVolume,
        habs, hnew] at hok
    | none =>
      cases c2 with
      | some e =>
        simp [isiDriver.CreateOn, isiDriver.Create, Remote.CheckVolume, Remote.CreateVolume,
          habs, hnew]
      | none =>
        simp [isiDriver.CreateOn, isiDriver.Create, Remote.CheckVolume, Remote.CreateVolume,
          habs, hnew]

/-- C6 amended, for `vol1` on a new driver and an empty cluster. -/
theorem C6_second_create_skips_creation_witness :
    Call.CreateVolume "vol1" ∉
      (((NewIsilonDriver "isilon").CreateOn ⟨[]⟩ ⟨"vol1"⟩ none none).1.d.CreateOn
        ((NewIsilonDriver "isilon").CreateOn ⟨[]⟩ ⟨"vol1"⟩ none none).2
        ⟨"vol1"⟩ none none).1.calls :=
  C6_second_create_skips_creation (NewIsilonDriver "isilon") ⟨[]⟩ "vol1" none none none none
    (by decide) (by decide) (by decide)

/-- C7: for every registry that already has an entry at the mount path of the
name, `Create` answers the empty response and makes no external call, so neither
the existence check nor the create operation of the remote service; the driver
state stays as it is. -/
theorem C7_create_known_volume_skips_remote (d : isiDriver) (name : String) (o : Outcomes)
    (v : volume) (h : mapIndex d.volumes (d.mountpoint name) = some v) :
    (d.Create ⟨name⟩ o).resp = {} ∧ (d.Create ⟨name⟩ o).calls = [] ∧
      (d.Create ⟨name⟩ o).d = d := by
  simp [isiDriver.Create, h]

/-- C7 for `vol1` registered with one connection, with a remote service that
would fail. -/
theorem C7_create_known_volume_skips_remote_witness :
    ((isiDriver.mk "isilon:/ifs/data/docker/volumes/"
        [("/var/lib/isilon/volumes/vol1", ⟨"vol1", GoInt.ofInt 1⟩)]).Create ⟨"vol1"⟩
        { outcomesOk with checkVolume := (false, some "503") }).resp = {} ∧
      ((isiDriver.mk "isilon:/ifs/data/docker/volumes/"
        [("/var/lib/isilon/volumes/vol1", ⟨"vol1", GoInt.ofInt 1⟩)]).Create ⟨"vol1"⟩
        { outcomesOk with checkVolume := (false, some "503") }).calls = [] ∧
      ((isiDriver.mk "isilon:/ifs/data/docker/volumes/"
        [("/var/lib/isilon/volumes/vol1", ⟨"vol1", GoInt.ofInt 1⟩)]).Create ⟨"vol1"⟩
        { outcomesOk with checkVolume := (false, some "503") }).d =
        isiDriver.mk "isilon:/ifs/data/docker/volumes/"
          [("/var/lib/isilon/volumes/vol1", ⟨"vol1", GoInt.ofInt 1⟩)] :=
  C7_create_known_volume_skips_remote _ "vol1" _ ⟨"vol1", GoInt.ofInt 1⟩ (by decide)

/-- C8: for every registry, name and remote-service outcome, `Create` answers the
error `Failed to create volume` if and only if the registry has no entry for the
name and either the existence check fails, or it reports the volume absent and the
remote creation fails; in every other case it answers the empty response; and in
all cases the driver state after the call is the state before it. -/
theorem C8_create_fails_exactly_on_remote_failure (d : isiDriver) (name : String)
    (o : Outcomes) :
    ((d.Create ⟨name⟩ o).resp = { Err := "Failed to create volume" } ↔
        mapIndex d.volumes (d.mountpoint name) = none ∧
          (o.checkVolume.2 ≠ none ∨
            (o.checkVolume = (false, none) ∧ o.createVolume ≠ none))) ∧
      ((d.Create ⟨name⟩ o).resp = { Err := "Failed to create volume" } ∨
        (d.Create ⟨name⟩ o).resp = {}) ∧
      (d.Create ⟨name⟩ o).d = d := by
  have hne : ¬ "" = "Failed to create volume" := by decide
  unfold isiDriver.Create
  simp only
  cases hreg : mapIndex d.volumes (d.mountpoint name) with
  | some v => simp [hne]
  | none =>
    rcases hchk : o.checkVolume with ⟨exist, cerr⟩
    cases cerr with
    | some e => simp [hne]
    | none =>
      cases exist with
      | true => simp [hne]
      | false =>
        cases hcr : o.createVolume with
        | some e => simp [hne]
        | none => simp [hne]

/-! ## Failure of `Mount` -/

/-- The three ways the end of `Mount` can go: refused before the `mount` command,
the `mount` command fails, or it succeeds and the volume is registered. -/
theorem mountChecked_outcome (d : isiDriver) (req : Request) (o : Outcomes)
    (calls : List Call) :
    ((d.mountChecked req o calls).resp.Err ≠ "" ∧ d.mountChecked req o calls =
        ⟨(d.mountChecked req o calls).resp, d, calls⟩) ∨
      (o.mountRun ≠ none ∧ d.mountChecked req o calls =
        ⟨{ Err := "Failed to mount volume" }, d,
          calls ++ [.MountCmd (d.clusterPath ++ req.Name) (d.mountpoint req.Name)]⟩) ∨
      (o.mountRun = none ∧ (d.mountChecked req o calls).resp.Err = "") := by
  have hmsg := notDirMessage_ne_empty (d.mountpoint req.Name)
  cases hrun : o.mountRun with
  | some e =>
    cases hfi : o.lstat.1 with
    | none => simp [isiDriver.mountChecked, hrun, hfi]
    | some fi =>
      cases hdir : fi.IsDir with
      | true => simp [isiDriver.mountChecked, hrun, hfi, hdir]
      | false => simp [isiDriver.mountChecked, hrun, hfi, hdir, hmsg]
  | none =>
    cases hfi : o.lstat.1 with
    | none => simp [isiDriver.mountChecked, hrun, hfi]
    | some fi =>
      cases hdir : fi.IsDir with
      | true => simp [isiDriver.mountChecked, hrun, hfi, hdir]
      | false => simp [isiDriver.mountChecked, hrun, hfi, hdir, hmsg]

theorem mountFresh_outcome (d : isiDriver) (req : Request) (o : Outcomes) :
    ((d.mountFresh req o).resp.Err ≠ "" ∧ (d.mountFresh req o).d = d ∧
        ∀ c ∈ (d.mountFresh req o).calls, Call.isMountCmd c = false) ∨
      (o.mountRun ≠ none ∧ ∃ calls, d.mountFresh req o =
        ⟨{ Err := "Failed to mount volume" }, d,
          calls ++ [.MountCmd (d.clusterPath ++ req.Name) (d.mountpoint req.Name)]⟩) ∨
      (o.mountRun = none ∧ (d.mountFresh req o).resp.Err = "") := by
  have key : ∀ calls : List Call, (∀ c ∈ calls, Call.isMountCmd c = false) →
      (((d.mountChecked req o calls).resp.Err ≠ "" ∧ (d.mountChecked req o calls).d = d ∧
        ∀ c ∈ (d.mountChecked req o calls).calls, Call.isMountCmd c = false) ∨
      (o.mountRun ≠ none ∧ ∃ calls1, d.mountChecked req o calls =
        ⟨{ Err := "Failed to mount volume" }, d,
          calls1 ++ [.MountCmd (d.clusterPath ++ req.Name) (d.mountpoint req.Name)]⟩) ∨
      (o.mountRun = none ∧ (d.mountChecked req o calls).resp.Err = "")) := by
    intro calls hcalls
    rcases mountChecked_outcome d req o calls with ⟨h1, h2⟩ | ⟨h1, h2⟩ | h
    · left
      refine ⟨h1, ?_, ?_⟩
      · rw [h2]
      · rw [h2]
        exact hcalls
    · right; left
      exact ⟨h1, calls, h2⟩
    · right; right
      exact h
  by_cases hne : IsNotExist o.lstat.2 = true
  · cases hmk : o.mkdirAll with
    | some e =>
      left
      simp [isiDriver.mountFresh, hne, hmk, PathError.Error_ne_empty, Call.isMountCmd]
    | none =>
      have h := key [.Lstat (d.mountpoint req.Name), .MkdirAll (d.mountpoint req.Name)]
        (by simp [Call.isMountCmd])
      simpa [isiDriver.mountFresh, hne, hmk] using h
  · cases herr : o.lstat.2 with
    | some e =>
      left
      rw [herr] at hne
      simp [isiDriver.mountFresh, hne, herr, PathError.Error_ne_empty, Call.isMountCmd]
    | none =>
      have h := key [.Lstat (d.mountpoint req.Name)] (by simp [Call.isMountCmd])
      simpa [isiDriver.mountFresh, IsNotExist, herr] using h

/-- What the slow path of `Mount` does when it fails or when the `mount` command
fails: the driver state is kept, the error is non-empty, and if the `mount`
command was run the error is `Failed to mount volume`. -/
theorem mountFresh_failure (d : isiDriver) (req : Request) (o : Outcomes)
    (h : (d.mountFresh req o).resp.Err ≠ "" ∨
      ((∃ c ∈ (d.mountFresh req o).calls, c.isMountCmd = true) ∧ o.mountRun ≠ none)) :
    (d.mountFresh req o).d = d ∧ (d.mountFresh req o).resp.Err ≠ "" ∧
      ((∃ c ∈ (d.mountFresh req o).calls, c.isMountCmd = true) →
        (d.mountFresh req o).resp = { Err := "Failed to mount volume" }) := by
  rcases mountFresh_outcome d req o with ⟨h1, h2, h3⟩ | ⟨_, calls, h2⟩ | ⟨h1, h2⟩
  · refine ⟨h2, h1, ?_⟩
    rintro ⟨c, hc, hm⟩
    rw [h3 c hc] at hm
    exact absurd hm (by decide)
  · rw [h2]
    exact ⟨rfl, by simp, fun _ => rfl⟩
  · rcases h with h | ⟨_, h⟩
    · exact absurd h2 h
    · exact absurd h1 h

/-- C9: for every registry, name and outcome of the filesystem inspection, the
directory creation and the OS mount, whenever `Mount` answers a non-empty error,
and whenever the `mount` command was run and failed, the driver state is exactly
unchanged and the error is non-empty; when the `mount` command was run, the error
is `Failed to mount volume`. -/
theorem C9_mount_failure_keeps_registry (d : isiDriver) (name : String) (o : Outcomes)
    (h : (d.Mount ⟨name⟩ o).resp.Err ≠ "" ∨
      ((∃ c ∈ (d.Mount ⟨name⟩ o).calls, c.isMountCmd = true) ∧ o.mountRun ≠ none)) :
    (d.Mount ⟨name⟩ o).d = d ∧ (d.Mount ⟨name⟩ o).resp.Err ≠ "" ∧
      ((∃ c ∈ (d.Mount ⟨name⟩ o).calls, c.isMountCmd = true) →
        (d.Mount ⟨name⟩ o).resp = { Err := "Failed to mount volume" }) := by
  cases hreg : mapIndex d.volumes (d.mountpoint name) with
  | none =>
    rw [Mount_miss_none d name o hreg] at h ⊢
    exact mountFresh_failure d ⟨name⟩ o h
  | some v =>
    by_cases hc : 0 < v.connections.val
    · rw [Mount_hit d name o v hreg hc] at h
      simp at h
    · rw [Mount_miss_zero d name o v hreg (not_lt.mp hc)] at h ⊢
      exact mountFresh_failure d ⟨name⟩ o h

/-- C9 for a first `Mount` of `vol1` whose `mount` command fails. -/
theorem C9_mount_failure_keeps_registry_witness :
    ((NewIsilonDriver "isilon").Mount ⟨"vol1"⟩
        { outcomesOk with mountRun := some "exit status 32" }).d = NewIsilonDriver "isilon" ∧
      ((NewIsilonDriver "isilon").Mount ⟨"vol1"⟩
        { outcomesOk with mountRun := some "exit status 32" }).resp.Err ≠ "" ∧
      ((∃ c ∈ ((NewIsilonDriver "isilon").Mount ⟨"vol1"⟩
        { outcomesOk with mountRun := some "exit status 32" }).calls, c.isMountCmd = true) →
        ((NewIsilonDriver "isilon").Mount ⟨"vol1"⟩
          { outcomesOk with mountRun := some "exit status 32" }).resp =
          { Err := "Failed to mount volume" }) :=
  C9_mount_failure_keeps_registry (NewIsilonDriver "isilon") "vol1"
    { outcomesOk with mountRun := some "exit status 32" } (Or.inl (by decide))

/-- C10: for every name whose registry entry is absent or has `connections ≤ 0`,
if `os.Lstat` finds the mount path and it is not a directory, `Mount` answers the
error `<mountpoint> already exist and it's not a directory`, its only external
call is the `Lstat` (no `mount` command, no `MkdirAll`), and the driver state is
unchanged. -/
theorem C10_mount_refuses_non_directory (d : isiDriver) (name : String) (o : Outcomes)
    (hreg : mapIndex d.volumes (d.mountpoint name) = none ∨
      ∃ v, mapIndex d.volumes (d.mountpoint name) = some v ∧ v.connections.val ≤ 0)
    (hstat : o.lstat = (some ⟨false⟩, none)) :
    d.Mount ⟨name⟩ o =
      ⟨{ Err := d.mountpoint name ++ " already exist and it's not a directory" }, d,
        [.Lstat (d.mountpoint name)]⟩ := by
  have hfresh : d.Mount ⟨name⟩ o = d.mountFresh ⟨name⟩ o := by
    rcases hreg with h | ⟨v, h, hc⟩
    · exact Mount_miss_none d name o h
    · exact Mount_miss_zero d name o v h hc
  rw [hfresh]
  simp [isiDriver.mountFresh, isiDriver.mountChecked, hstat, IsNotExist]

/-- C10 for `vol2` on a new driver, the mount path being a regular file. -/
theorem C10_mount_refuses_non_directory_witness :
    (NewIsilonDriver "isilon").Mount ⟨"vol2"⟩ { outcomesOk with lstat := (some ⟨false⟩, none) } =
      ⟨{ Err := (NewIsilonDriver "isilon").mountpoint "vol2" ++
            " already exist and it's not a directory" },
        NewIsilonDriver "isilon", [.Lstat ((NewIsilonDriver "isilon").mountpoint "vol2")]⟩ :=
  C10_mount_refuses_non_directory (NewIsilonDriver "isilon") "vol2"
    { outcomesOk with lstat := (some ⟨false⟩, none) } (Or.inl (by decide)) (by decide)

/-! ## `Unmount` -/

/-- C11: for every registry entry with `connections = 1`, if the `umount` command
fails then `Unmount` answers the error `Failed to unmount volume` and the driver
state is exactly unchanged, the count still 1; an immediately repeated `Unmount`
therefore finds the same entry and runs the `umount` command again. -/
theorem C11_unmount_failure_keeps_count (d : isiDriver) (name : String) (o o2 : Outcomes)
    (v : volume) (e : String)
    (h : mapIndex d.volumes (d.mountpoint name) = some v) (hc : v.connections.val = 1)
    (hfail : o.umountRun = some e) :
    d.Unmount ⟨name⟩ o =
        ⟨{ Err := "Failed to unmount volume" }, d, [.UmountCmd (d.mountpoint name)]⟩ ∧
      mapIndex (d.Unmount ⟨name⟩ o).d.volumes (d.mountpoint name) = some v ∧
      ((d.Unmount ⟨name⟩ o).d.Unmount ⟨name⟩ o2).calls = [.UmountCmd (d.mountpoint name)] := by
  have h1 : d.Unmount ⟨name⟩ o =
      ⟨{ Err := "Failed to unmount volume" }, d, [.UmountCmd (d.mountpoint name)]⟩ := by
    simp only [isiDriver.Unmount, h, hc, hfail, if_true]
  refine ⟨h1, ?_, ?_⟩
  · rw [h1]
    exact h
  · rw [h1]
    cases hrun : o2.umountRun with
    | some e2 => simp only [isiDriver.Unmount, h, hc, hrun, if_true]
    | none => simp only [isiDriver.Unmount, h, hc, hrun, if_true]

/-- C11 for `vol1` mounted once, the `umount` command failing. -/
theorem C11_unmount_failure_keeps_count_witness :
    ((NewIsilonDriver "isilon").Mount ⟨"vol1"⟩ outcomesOk).d.Unmount ⟨"vol1"⟩
        { outcomesOk with umountRun := some "exit status 32" } =
        ⟨{ Err := "Failed to unmount volume" },
          ((NewIsilonDriver "isilon").Mount ⟨"vol1"⟩ outcomesOk).d,
          [.UmountCmd (((NewIsilonDriver "isilon").Mount ⟨"vol1"⟩ outcomesOk).d.mountpoint
            "vol1")]⟩ ∧
      mapIndex (((NewIsilonDriver "isilon").Mount ⟨"vol1"⟩ outcomesOk).d.Unmount ⟨"vol1"⟩
        { outcomesOk with umountRun := some "exit status 32" }).d.volumes
        (((NewIsilonDriver "isilon").Mount ⟨"vol1"⟩ outcomesOk).d.mountpoint "vol1") =
        some ⟨"vol1", GoInt.ofInt 1⟩ ∧
      ((((NewIsilonDriver "isilon").Mount ⟨"vol1"⟩ outcomesOk).d.Unmount ⟨"vol1"⟩
        { outcomesOk with umountRun := some "exit status 32" }).d.Unmount ⟨"vol1"⟩
          outcomesOk).calls =
        [.UmountCmd (((NewIsilonDriver "isilon").Mount ⟨"vol1"⟩ outcomesOk).d.mountpoint
          "vol1")] :=
  C11_unmount_failure_keeps_count ((NewIsilonDriver "isilon").Mount ⟨"vol1"⟩ outcomesOk).d
    "vol1" { outcomesOk with umountRun := some "exit status 32" } outcomesOk ⟨"vol1", GoInt.ofInt 1⟩
    "exit status 32" (by decide) (by decide) (by decide)

/-- C12: for every registry entry with `connections = c > 1`, `Unmount` on its
name answers the empty response, runs no `umount` command (it makes no external
call at all) and leaves the entry with `connections = c - 1`. -/
theorem C12_unmount_shared_only_decrements (d : isiDriver) (name : String) (o : Outcomes)
    (v : volume) (h : mapIndex d.volumes (d.mountpoint name) = some v)
    (hc : 1 < v.connections.val) :
    (d.Unmount ⟨name⟩ o).resp = {} ∧ (d.Unmount ⟨name⟩ o).calls = [] ∧
      mapIndex (d.Unmount ⟨name⟩ o).d.volumes (d.mountpoint name) =
        some ⟨v.name, v.connections.pred⟩ ∧
      v.connections.pred.val = v.connections.val - 1 := by
  have hne : ¬ v.connections.val = 1 := by omega
  have hpred : v.connections.pred.val = v.connections.val - 1 :=
    GoInt.pred_val _ (by omega)
  simp only [isiDriver.Unmount, h, hne, if_false]
  exact ⟨trivial, trivial, mapIndex_mapAssign_same _ _ _, hpred⟩

/-- C12 after two `Mount` calls of `vol1`: one `Unmount` leaves the count at 1. -/
theorem C12_unmount_shared_only_decrements_witness :
    (((NewIsilonDriver "isilon").run
        [⟨.Mount, "vol1", outcomesOk⟩, ⟨.Mount, "vol1", outcomesOk⟩]).d.Unmount ⟨"vol1"⟩
        outcomesOk).resp = {} ∧
      (((NewIsilonDriver "isilon").run
        [⟨.Mount, "vol1", outcomesOk⟩, ⟨.Mount, "vol1", outcomesOk⟩]).d.Unmount ⟨"vol1"⟩
        outcomesOk).calls = [] ∧
      mapIndex (((NewIsilonDriver "isilon").run
        [⟨.Mount, "vol1", outcomesOk⟩, ⟨.Mount, "vol1", outcomesOk⟩]).d.Unmount ⟨"vol1"⟩
        outcomesOk).d.volumes
        (((NewIsilonDriver "isilon").run
          [⟨.Mount, "vol1", outcomesOk⟩, ⟨.Mount, "vol1", outcomesOk⟩]).d.mountpoint "vol1") =
        some ⟨(volume.mk "vol1" (GoInt.ofInt 2)).name,
          (volume.mk "vol1" (GoInt.ofInt 2)).connections.pred⟩ ∧
      (volume.mk "vol1" (GoInt.ofInt 2)).connections.pred.val =
        (volume.mk "vol1" (GoInt.ofInt 2)).connections.val - 1 :=
  C12_unmount_shared_only_decrements _ "vol1" outcomesOk ⟨"vol1", GoInt.ofInt 2⟩
    (by decide) (by decide)

/-- C13: for every registry with no entry at the mount path of the name,
`Unmount` answers the non-empty error `Unable to find volume mounted on
<mountpoint>`, runs no `umount` command (no external call at all) and leaves the
driver state unchanged. -/
theorem C13_unmount_unknown_volume_not_found (d : isiDriver) (name : String) (o : Outcomes)
    (h : mapIndex d.volumes (d.mountpoint name) = none) :
    (d.Unmount ⟨name⟩ o).resp =
        { Err := "Unable to find volume mounted on " ++ d.mountpoint name } ∧
      (d.Unmount ⟨name⟩ o).resp.Err ≠ "" ∧
      (d.Unmount ⟨name⟩ o).calls = [] ∧
      (d.Unmount ⟨name⟩ o).d = d := by
  rw [Unmount_absent d name o h]
  exact ⟨rfl, notFoundMessage_ne_empty _, rfl, rfl⟩

/-- C13 for `vol1` on a new driver. -/
theorem C13_unmount_unknown_volume_not_found_witness :
    ((NewIsilonDriver "isilon").Unmount ⟨"vol1"⟩ outcomesOk).resp =
        { Err := "Unable to find volume mounted on " ++
            (NewIsilonDriver "isilon").mountpoint "vol1" } ∧
      ((NewIsilonDriver "isilon").Unmount ⟨"vol1"⟩ outcomesOk).resp.Err ≠ "" ∧
      ((NewIsilonDriver "isilon").Unmount ⟨"vol1"⟩ outcomesOk).calls = [] ∧
      ((NewIsilonDriver "isilon").Unmount ⟨"vol1"⟩ outcomesOk).d = NewIsilonDriver "isilon" :=
  C13_unmount_unknown_volume_not_found (NewIsilonDriver "isilon") "vol1" outcomesOk
    (by decide)

/-! ## `Remove` -/

/-- C14: for every registry entry with `connections ≤ 1`, `Remove` deletes that
registry entry and invokes the recursive deletion of the mount path exactly once
(its only external call); if that deletion fails the response carries the text of
the filesystem error and the entry is absent from the registry all the same; if
it succeeds the response is empty. -/
theorem C14_remove_deletes_entry_then_directory (d : isiDriver) (name : String)
    (o : Outcomes) (v : volume)
    (h : mapIndex d.volumes (d.mountpoint name) = some v) (hc : v.connections.val ≤ 1) :
    (d.Remove ⟨name⟩ o).d = { d with volumes := mapDelete d.volumes (d.mountpoint name) } ∧
      mapIndex (d.Remove ⟨name⟩ o).d.volumes (d.mountpoint name) = none ∧
      (d.Remove ⟨name⟩ o).calls = [.RemoveAll (d.mountpoint name)] ∧
      (∀ err, o.removeAll = some err → (d.Remove ⟨name⟩ o).resp = { Err := err.Error }) ∧
      (o.removeAll = none → (d.Remove ⟨name⟩ o).resp = {}) := by
  obtain ⟨h1, h2⟩ := Remove_not_shared d name o v h hc
  refine ⟨h1, ?_, h2, ?_, ?_⟩
  · rw [h1]
    exact mapIndex_mapDelete_same _ _
  · intro err herr
    simp only [isiDriver.Remove, h, gt_iff_lt, not_lt.mpr hc, if_false, herr]
  · intro hnone
    simp only [isiDriver.Remove, h, gt_iff_lt, not_lt.mpr hc, if_false, hnone]

/-- C14 for `vol1` mounted once, the recursive deletion failing. -/
theorem C14_remove_deletes_entry_then_directory_witness :
    mapIndex (((NewIsilonDriver "isilon").Mount ⟨"vol1"⟩ outcomesOk).d.Remove ⟨"vol1"⟩
        { outcomesOk with removeAll := some ⟨"unlinkat", "/var/lib/isilon/volumes/vol1",
            "device or resource busy", false⟩ }).d.volumes
        "/var/lib/isilon/volumes/vol1" = none ∧
      (((NewIsilonDriver "isilon").Mount ⟨"vol1"⟩ outcomesOk).d.Remove ⟨"vol1"⟩
        { outcomesOk with removeAll := some ⟨"unlinkat", "/var/lib/isilon/volumes/vol1",
            "device or resource busy", false⟩ }).resp =
        { Err := "unlinkat /var/lib/isilon/volumes/vol1: device or resource busy" } :=
  have h := C14_remove_deletes_entry_then_directory
    ((NewIsilonDriver "isilon").Mount ⟨"vol1"⟩ outcomesOk).d "vol1"
    { outcomesOk with removeAll := some ⟨"unlinkat", "/var/lib/isilon/volumes/vol1",
        "device or resource busy", false⟩ } ⟨"vol1", GoInt.ofInt 1⟩ (by decide) (by decide)
  ⟨h.2.1, h.2.2.2.1 _ rfl⟩

/-- C15: `Remove` is an idempotent delete.  With no entry at the mount path of the
name, `Remove` answers the empty response, makes no external call and leaves the
driver state unchanged; hence, whenever the name has no entry or a first `Remove`
deletes its entry, a second `Remove` of the same name answers the empty response,
makes no call and leaves the state as the first one left it. -/
theorem C15_remove_is_idempotent (d : isiDriver) (name : String) (o1 o2 : Outcomes)
    (h : mapIndex d.volumes (d.mountpoint name) = none ∨
      ∃ v, mapIndex d.volumes (d.mountpoint name) = some v ∧ v.connections.val ≤ 1) :
    (mapIndex d.volumes (d.mountpoint name) = none → d.Remove ⟨name⟩ o1 = ⟨{}, d, []⟩) ∧
      (d.Remove ⟨name⟩ o1).d.Remove ⟨name⟩ o2 = ⟨{}, (d.Remove ⟨name⟩ o1).d, []⟩ := by
  have absent : ∀ (d0 : isiDriver) (o : Outcomes),
      mapIndex d0.volumes (d0.mountpoint name) = none → d0.Remove ⟨name⟩ o = ⟨{}, d0, []⟩ := by
    intro d0 o h0
    simp only [isiDriver.Remove, h0]
  refine ⟨absent d o1, ?_⟩
  apply absent
  rcases h with h | ⟨v, h, hc⟩
  · rw [absent d o1 h]
    exact h
  · rw [(Remove_not_shared d name o1 v h hc).1]
    exact mapIndex_mapDelete_same _ _

/-- C15 for `vol1` mounted once: the first `Remove` deletes, the second is a no-op. -/
theorem C15_remove_is_idempotent_witness :
    (mapIndex ((NewIsilonDriver "isilon").Mount ⟨"vol1"⟩ outcomesOk).d.volumes
        (((NewIsilonDriver "isilon").Mount ⟨"vol1"⟩ outcomesOk).d.mountpoint "vol1") = none →
      ((NewIsilonDriver "isilon").Mount ⟨"vol1"⟩ outcomesOk).d.Remove ⟨"vol1"⟩ outcomesOk =
        ⟨{}, ((NewIsilonDriver "isilon").Mount ⟨"vol1"⟩ outcomesOk).d, []⟩) ∧
      (((NewIsilonDriver "isilon").Mount ⟨"vol1"⟩ outcomesOk).d.Remove ⟨"vol1"⟩
        outcomesOk).d.Remove ⟨"vol1"⟩ outcomesOk =
        ⟨{}, (((NewIsilonDriver "isilon").Mount ⟨"vol1"⟩ outcomesOk).d.Remove ⟨"vol1"⟩
          outcomesOk).d, []⟩ :=
  C15_remove_is_idempotent ((NewIsilonDriver "isilon").Mount ⟨"vol1"⟩ outcomesOk).d "vol1"
    outcomesOk outcomesOk (Or.inr ⟨⟨"vol1", GoInt.ofInt 1⟩, by decide, by decide⟩)

/-! ## Lemmas on `Clean` -/

/-- Any fuel that covers the input gives the same result: each round of the loop
consumes at least one character. -/
theorem cleanLoop_fuel (rooted : Bool) (fuel1 : Nat) :
    ∀ (fuel2 : Nat) (p out : List Char) (dotdot : Nat),
      p.length ≤ fuel1 → p.length ≤ fuel2 →
      cleanLoop rooted fuel1 p out dotdot = cleanLoop rooted fuel2 p out dotdot := by
  induction fuel1 with
  | zero =>
    intro fuel2 p out dotdot h1 _
    have hp : p = [] := List.length_eq_zero.mp (Nat.le_zero.mp h1)
    subst hp
    cases fuel2 <;> simp [cleanLoop]
  | succ n ih =>
    intro fuel2 p out dotdot h1 h2
    cases p with
    | nil => cases fuel2 <;> simp [cleanLoop]
    | cons c rest =>
      cases fuel2 with
      | zero => simp at h2
      | succ m =>
        have hr1 : rest.length ≤ n := by simpa using h1
        have hr2 : rest.length ≤ m := by simpa using h2
        have ht : rest.tail.length ≤ rest.length := by simp
        have hd : c ≠ '/' →
            ((c :: rest).dropWhile (fun x => decide (x ≠ '/'))).length ≤ rest.length := by
          intro hc
          simp only [List.dropWhile_cons, hc, ne_eq, not_false_eq_true, decide_True, if_true]
          exact (List.dropWhile_sublist _).length_le
        simp only [cleanLoop]
        split_ifs <;>
          (apply ih m <;>
            first
              | omega
              | exact le_trans (hd (by assumption)) (by assumption))

/-- Reading an element that is followed by a separator or by the end of the
input stops exactly at its end. -/
theorem takeWhile_dropWhile_element (e rest : List Char) (hs : '/' ∉ e)
    (hr : rest = [] ∨ rest.head? = some '/') :
    (e ++ rest).takeWhile (fun x => decide (x ≠ '/')) = e ∧
      (e ++ rest).dropWhile (fun x => decide (x ≠ '/')) = rest := by
  induction e with
  | nil =>
    rcases hr with hr | hr
    · subst hr
      simp
    · cases rest with
      | nil => simp
      | cons c t =>
        simp only [List.head?_cons, Option.some.injEq] at hr
        subst hr
        simp
  | cons c t ih =>
    have hc : c ≠ '/' := fun h => hs (by simp [h])
    have ht : '/' ∉ t := fun h => hs (List.mem_cons_of_mem _ h)
    simpa [hc] using ih ht

/-- A separator is skipped. -/
theorem cleanLoop_separator (fuel : Nat) (rest out : List Char) (dotdot : Nat)
    (hf : ('/' :: rest).length ≤ fuel) :
    cleanLoop true fuel ('/' :: rest) out dotdot =
      cleanLoop true rest.length rest out dotdot := by
  cases fuel with
  | zero => simp at hf
  | succ n =>
    simp only [cleanLoop, if_true]
    exact cleanLoop_fuel true n _ _ _ _ (by simpa using hf) (le_refl _)

/-- A real path element is copied to the output, after a separator unless the
output is the root alone. -/
theorem cleanLoop_element (fuel : Nat) (e rest out : List Char) (dotdot : Nat)
    (he : e ≠ []) (hs : '/' ∉ e) (h1 : e ≠ ['.']) (h2 : e ≠ ['.', '.'])
    (hr : rest = [] ∨ rest.head? = some '/') (hf : (e ++ rest).length ≤ fuel) :
    cleanLoop true fuel (e ++ rest) out dotdot =
      cleanLoop true rest.length rest
        (e.reverse ++ (if out.length ≠ 1 then '/' :: out else out)) dotdot := by
  cases e with
  | nil => exact absurd rfl he
  | cons c t =>
    cases fuel with
    | zero => simp at hf
    | succ n =>
      have hc : c ≠ '/' := fun h => hs (by simp [h])
      have ht : '/' ∉ t := fun h => hs (List.mem_cons_of_mem _ h)
      -- the element is neither `.` nor `..`
      have hdot : ¬ (c = '.' ∧ (t ++ rest = [] ∨ (t ++ rest).head? = some '/')) := by
        rintro ⟨hc1, hrest⟩
        cases t with
        | nil => exact h1 (by rw [hc1])
        | cons c2 t2 =>
          rcases hrest with h | h
          · simp at h
          · simp only [List.cons_append, List.head?_cons, Option.some.injEq] at h
            exact ht (by simp [h])
      have hdotdot : ¬ (c = '.' ∧ (t ++ rest).head? = some '.' ∧
          ((t ++ rest).tail = [] ∨ (t ++ rest).tail.head? = some '/')) := by
        rintro ⟨hc1, hhead, htail⟩
        cases t with
        | nil =>
          rcases hr with hr | hr
          · subst hr
            simp at hhead
          · rw [List.nil_append, hr] at hhead
            simp at hhead
        | cons c2 t2 =>
          simp only [List.cons_append, List.head?_cons, Option.some.injEq] at hhead
          simp only [List.cons_append, List.tail_cons] at htail
          cases t2 with
          | nil => exact h2 (by rw [hc1, hhead])
          | cons c3 t3 =>
            rcases htail with h | h
            · simp at h
            · simp only [List.cons_append, List.head?_cons, Option.some.injEq] at h
              exact ht (by simp [h])
      obtain ⟨htake, hdrop⟩ := takeWhile_dropWhile_element (c :: t) rest hs hr
      have hlen : rest.length ≤ n := by
        simp only [List.cons_append, List.length_cons, List.length_append] at hf
        omega
      simp only [List.cons_append] at htake hdrop ⊢
      simp only [cleanLoop, hc, if_false, hdot, hdotdot, htake, hdrop, true_and, Bool.not_true,
        Bool.false_eq_true, false_and, or_false]
      exact cleanLoop_fuel true n _ _ _ _ hlen (le_refl _)

theorem intercalate_slash_cons_cons (e e2 : List Char) (es : List (List Char)) :
    ['/'].intercalate (e :: e2 :: es) = e ++ '/' :: ['/'].intercalate (e2 :: es) := by
  simp [List.intercalate]

/-- A sequence of real path elements, separated by single separators, is copied
to the output as it stands. -/
theorem cleanLoop_elements (es : List (List Char)) :
    ∀ (fuel : Nat) (rest out : List Char) (dotdot : Nat), es ≠ [] →
      (∀ e ∈ es, e ≠ [] ∧ '/' ∉ e ∧ e ≠ ['.'] ∧ e ≠ ['.', '.']) →
      (rest = [] ∨ rest.head? = some '/') →
      (['/'].intercalate es ++ rest).length ≤ fuel →
      cleanLoop true fuel (['/'].intercalate es ++ rest) out dotdot =
        cleanLoop true rest.length rest
          ((['/'].intercalate es).reverse ++ (if out.length ≠ 1 then '/' :: out else out))
          dotdot := by
  induction es with
  | nil => intro _ _ _ _ h; exact absurd rfl h
  | cons e t ih =>
    intro fuel rest out dotdot _ hall hr hf
    obtain ⟨he, hs, h1, h2⟩ := hall e (List.mem_cons_self _ _)
    cases t with
    | nil =>
      have hone : ['/'].intercalate [e] = e := by simp [List.intercalate]
      rw [hone] at hf ⊢
      exact cleanLoop_element fuel e rest out dotdot he hs h1 h2 hr hf
    | cons e2 t2 =>
      rw [intercalate_slash_cons_cons] at hf ⊢
      rw [List.append_assoc] at hf ⊢
      rw [cleanLoop_element fuel e ('/' :: ['/'].intercalate (e2 :: t2) ++ rest) out dotdot
        he hs h1 h2 (Or.inr rfl) hf]
      rw [List.cons_append, cleanLoop_separator _ _ _ _ (le_refl _)]
      rw [ih _ rest _ dotdot (List.cons_ne_nil _ _)
        (fun x hx => hall x (List.mem_cons_of_mem _ hx)) hr (le_refl _)]
      have hlen : (e.reverse ++ (if out.length ≠ 1 then '/' :: out else out)).length ≠ 1 := by
        have : 0 < e.length := List.length_pos.mpr he
        split_ifs <;> simp only [List.length_append, List.length_reverse, List.length_cons] <;>
          omega
      rw [if_pos hlen]
      congr 1
      simp

/-! ## Lemmas on plain names -/

theorem pathElements_ne_nil (p : List Char) : pathElements p ≠ [] := by
  cases p with
  | nil => simp [pathElements]
  | cons c rest =>
    by_cases hc : c = '/'
    · simp [pathElements, hc]
    · cases h : pathElements rest <;> simp [pathElements, hc, h]

theorem intercalate_slash_cons_head (c : Char) (e : List Char) (es : List (List Char)) :
    ['/'].intercalate ((c :: e) :: es) = c :: ['/'].intercalate (e :: es) := by
  cases es <;> simp [List.intercalate]

/-- The elements of a path, put together with separators, give the path back. -/
theorem pathElements_intercalate (p : List Char) : ['/'].intercalate (pathElements p) = p := by
  induction p with
  | nil => simp [pathElements, List.intercalate]
  | cons c rest ih =>
    cases h : pathElements rest with
    | nil => exact absurd h (pathElements_ne_nil rest)
    | cons e es =>
      rw [h] at ih
      by_cases hc : c = '/'
      · subst hc
        simp only [pathElements, if_true, h]
        rw [intercalate_slash_cons_cons, ih]
        rfl
      · simp only [pathElements, hc, if_false, h]
        rw [intercalate_slash_cons_head, ih]

theorem pathElements_no_separator (p : List Char) : ∀ e ∈ pathElements p, '/' ∉ e := by
  induction p with
  | nil => simp [pathElements]
  | cons c rest ih =>
    cases h : pathElements rest with
    | nil => exact absurd h (pathElements_ne_nil rest)
    | cons e es =>
      rw [h] at ih
      by_cases hc : c = '/'
      · subst hc
        simp only [pathElements, if_true, h]
        intro x hx
        rcases List.mem_cons.mp hx with hx | hx
        · subst hx
          simp
        · exact ih x hx
      · simp only [pathElements, hc, if_false, h]
        intro x hx
        rcases List.mem_cons.mp hx with hx | hx
        · subst hx
          intro hmem
          rcases List.mem_cons.mp hmem with h1 | h1
          · exact hc h1.symm
          · exact ih e (List.mem_cons_self _ _) h1
        · exact ih x (List.mem_cons_of_mem _ hx)

/-- On a plain name the loop of `Clean` copies the name, after a separator unless
the output is the root alone. -/
theorem cleanLoop_plain (name : String) (h : plainName name = true) (fuel : Nat)
    (out : List Char) (dotdot : Nat) (hf : name.data.length ≤ fuel) :
    cleanLoop true fuel name.data out dotdot =
      name.data.reverse ++ (if out.length ≠ 1 then '/' :: out else out) := by
  have hall : ∀ e ∈ pathElements name.data, e ≠ [] ∧ '/' ∉ e ∧ e ≠ ['.'] ∧ e ≠ ['.', '.'] := by
    intro e he
    have h1 := List.all_eq_true.mp h e he
    simp only [decide_eq_true_eq] at h1
    exact ⟨h1.1, pathElements_no_separator _ e he, h1.2.1, h1.2.2⟩
  have key := cleanLoop_elements (pathElements name.data) fuel [] out dotdot
    (pathElements_ne_nil _) hall (Or.inl rfl)
    (by rw [List.append_nil, pathElements_intercalate]; exact hf)
  rw [List.append_nil, pathElements_intercalate] at key
  rw [key]
  simp [cleanLoop]

/-- For a plain name the mount path is the base directory followed by the name. -/
theorem mountpoint_plain (d : isiDriver) (name : String) (h : plainName name = true) :
    d.mountpoint name = mountPath ++ name := by
  have hdata : (mountPath ++ "/" ++ name).data =
      '/' :: (['/'].intercalate ["var".data, "lib".data, "isilon".data, "volumes".data] ++
        ('/' :: '/' :: name.data)) := by
    rw [String.data_append, String.data_append]
    rfl
  have hbase : ∀ e ∈ ["var".data, "lib".data, "isilon".data, "volumes".data],
      e ≠ [] ∧ '/' ∉ e ∧ e ≠ ['.'] ∧ e ≠ ['.', '.'] := by decide
  have hloop := cleanLoop_elements ["var".data, "lib".data, "isilon".data, "volumes".data]
    ((mountPath ++ "/" ++ name).data.length) ('/' :: '/' :: name.data) ['/'] 1
    (by simp) hbase (Or.inr rfl) (by rw [hdata]; simp)
  rw [cleanLoop_separator _ _ _ _ (le_refl _), cleanLoop_separator _ _ _ _ (le_refl _),
    cleanLoop_plain name h _ _ _ (le_refl _)] at hloop
  have hne : mountPath ≠ "" := by decide
  apply String.ext
  simp only [isiDriver.mountpoint, Join, hne, ne_eq, not_false_eq_true, if_true, Clean]
  rw [hdata]
  simp only [decide_True, if_true]
  rw [hdata] at hloop
  simp only [List.length_cons] at hloop ⊢
  rw [hloop]
  simp only [String.data_append]
  simp [List.intercalate]
  rfl

/-! ## `Clean` resolves the elements of a path -/

theorem renderDirs_append (p q : List (List Char)) :
    renderDirs (p ++ q) = renderDirs p ++ renderDirs q := by
  induction p with
  | nil => rfl
  | cons e t ih => simp [renderDirs, ih]

theorem renderDirs_length (p : List (List Char)) (hp : p ≠ [])
    (hne : ∀ e ∈ p, e ≠ []) : 2 ≤ (renderDirs p).length := by
  cases p with
  | nil => exact absurd rfl hp
  | cons e t =>
    have : 0 < e.length := List.length_pos.mpr (hne e (List.mem_cons_self _ _))
    simp only [renderDirs, List.length_cons, List.length_append]
    omega

/-- Going up from a directory: the `..` case of `Clean` takes the last element
and its separator off the buffer, and leaves the root when nothing else is left. -/
theorem cleanBacktrack_element (y b : List Char) (hy : y ≠ []) (hs : '/' ∉ y) :
    cleanBacktrack 1 (y ++ '/' :: b) = if b = [] then ['/'] else b := by
  induction y with
  | nil => exact absurd rfl hy
  | cons c t ih =>
    have hc : c ≠ '/' := fun h => hs (by simp [h])
    have ht : '/' ∉ t := fun h => hs (List.mem_cons_of_mem _ h)
    cases t with
    | nil =>
      cases b with
      | nil => simp [cleanBacktrack]
      | cons x b2 => simp [cleanBacktrack, hc]
    | cons c2 t2 =>
      have hlen : 1 < (c2 :: t2 ++ '/' :: b).length := by
        simp only [List.cons_append, List.length_cons, List.length_append]
        omega
      rw [List.cons_append, cleanBacktrack, if_pos ⟨hlen, hc⟩]
      exact ih (List.cons_ne_nil _ _) ht

theorem cleanBuffer_length_of_ne_nil (p : List (List Char)) (hp : p ≠ [])
    (hne : ∀ e ∈ p, e ≠ []) : 2 ≤ (cleanBuffer p).length := by
  simp only [cleanBuffer, hp, if_false, List.length_reverse]
  exact renderDirs_length p hp hne

theorem cleanBuffer_concat (p : List (List Char)) (e : List Char) :
    cleanBuffer (p ++ [e]) = e.reverse ++ '/' :: (renderDirs p).reverse := by
  simp [cleanBuffer, renderDirs_append, renderDirs]

/-- One element of the input, up to the next separator or the end, is resolved
against the directories written so far. -/
theorem cleanLoop_resolveElement (fuel : Nat) (e rest : List Char) (p : List (List Char))
    (hs : '/' ∉ e) (hr : rest = [] ∨ rest.head? = some '/')
    (hp : ∀ x ∈ p, x ≠ [] ∧ '/' ∉ x) (hf : (e ++ rest).length ≤ fuel) :
    cleanLoop true fuel (e ++ rest) (cleanBuffer p) 1 =
      cleanLoop true rest.length rest (cleanBuffer (resolveElement p e)) 1 := by
  by_cases he : e = []
  · subst he
    simp only [List.nil_append, resolveElement, true_or, if_true]
    exact cleanLoop_fuel true _ _ _ _ _ (by simpa using hf) (le_refl _)
  by_cases hd : e = ['.']
  · subst hd
    cases fuel with
    | zero => simp at hf
    | succ n =>
      have hlen : rest.length ≤ n := by simpa using hf
      have hres : resolveElement p ['.'] = p := by simp [resolveElement]
      rw [hres]
      show cleanLoop true (n + 1) ('.' :: rest) (cleanBuffer p) 1 = _
      simp only [cleanLoop, hr, and_self, if_true, show ¬ ('.' = '/') from by decide, if_false]
      exact cleanLoop_fuel true n _ _ _ _ hlen (le_refl _)
  by_cases hdd : e = ['.', '.']
  · subst hdd
    cases fuel with
    | zero => simp at hf
    | succ n =>
      have hlen : rest.length ≤ n := by
        simp only [List.cons_append, List.length_cons, List.nil_append] at hf
        omega
      have hres : resolveElement p ['.', '.'] = p.dropLast := by simp [resolveElement]
      rw [hres]
      have hnot : ¬ ('.' :: rest = [] ∨ ('.' :: rest).head? = some '/') := by simp
      show cleanLoop true (n + 1) ('.' :: '.' :: rest) (cleanBuffer p) 1 = _
      simp only [cleanLoop, hnot, and_false, if_false,
        show ¬ ('.' = '/') from by decide, List.head?_cons, List.tail_cons, hr, and_self,
        if_true, Bool.not_true, Bool.false_eq_true]
      rcases List.eq_nil_or_concat p with hnil | ⟨q, x, hq⟩
      · subst hnil
        simp only [cleanBuffer, if_true, List.length_singleton, lt_irrefl, if_false,
          List.dropLast_nil]
        exact cleanLoop_fuel true n _ _ _ _ hlen (le_refl _)
      · rw [List.concat_eq_append] at hq
        subst hq
        have hx := hp x (by simp)
        have hq : ∀ y ∈ q, y ≠ [] := fun y hy => (hp y (by simp [hy])).1
        have hlong : 1 < (cleanBuffer (q ++ [x])).length := by
          have := cleanBuffer_length_of_ne_nil (q ++ [x]) (by simp) (fun y hy => (hp y hy).1)
          omega
        rw [if_pos hlong, cleanBuffer_concat,
          cleanBacktrack_element x.reverse _ (by simpa using hx.1) (by simpa using hx.2)]
        have hdrop : (q ++ [x]).dropLast = q := by simp
        rw [hdrop]
        have hbuf : (if (renderDirs q).reverse = [] then ['/'] else (renderDirs q).reverse) =
            cleanBuffer q := by
          by_cases hqn : q = []
          · subst hqn
            simp [cleanBuffer, renderDirs]
          · have := renderDirs_length q hqn hq
            have hne : (renderDirs q).reverse ≠ [] := by
              intro h0
              rw [List.reverse_eq_nil_iff] at h0
              rw [h0] at this
              simp at this
            simp [cleanBuffer, hqn, hne]
        rw [hbuf]
        exact cleanLoop_fuel true n _ _ _ _ hlen (le_refl _)
  · have hres : resolveElement p e = p ++ [e] := by simp [resolveElement, he, hd, hdd]
    rw [hres, cleanLoop_element fuel e rest (cleanBuffer p) 1 he hs hd hdd hr hf,
      cleanBuffer_concat]
    congr 2
    by_cases hpn : p = []
    · subst hpn
      simp [cleanBuffer, renderDirs]
    · have := cleanBuffer_length_of_ne_nil p hpn (fun y hy => (hp y hy).1)
      rw [if_pos (by omega)]
      simp [cleanBuffer, hpn]

theorem resolveElement_real (p : List (List Char)) (e : List Char) (hs : '/' ∉ e)
    (hp : ∀ x ∈ p, x ≠ [] ∧ '/' ∉ x) : ∀ x ∈ resolveElement p e, x ≠ [] ∧ '/' ∉ x := by
  intro x hx
  unfold resolveElement at hx
  split_ifs at hx with h1 h2
  · exact hp x hx
  · exact hp x (List.dropLast_subset _ hx)
  · rcases List.mem_append.mp hx with h | h
    · exact hp x h
    · rw [List.mem_singleton] at h
      subst h
      exact ⟨fun h0 => h1 (Or.inl h0), hs⟩

/-- The loop of `Clean` on a rooted path resolves its elements one after the
other against the directories written so far. -/
theorem cleanLoop_resolve (es : List (List Char)) :
    ∀ (fuel : Nat) (p : List (List Char)), es ≠ [] → (∀ e ∈ es, '/' ∉ e) →
      (∀ x ∈ p, x ≠ [] ∧ '/' ∉ x) → (['/'].intercalate es).length ≤ fuel →
      cleanLoop true fuel (['/'].intercalate es) (cleanBuffer p) 1 =
        cleanBuffer (es.foldl resolveElement p) := by
  induction es with
  | nil => intro _ _ h; exact absurd rfl h
  | cons e t ih =>
    intro fuel p _ hes hp hf
    have hs : '/' ∉ e := hes e (List.mem_cons_self _ _)
    cases t with
    | nil =>
      have hone : ['/'].intercalate [e] = e := by simp [List.intercalate]
      rw [hone] at hf ⊢
      have key := cleanLoop_resolveElement fuel e [] p hs (Or.inl rfl) hp
        (by rw [List.append_nil]; exact hf)
      rw [List.append_nil] at key
      rw [key]
      simp [cleanLoop]
    | cons e2 t2 =>
      rw [intercalate_slash_cons_cons] at hf ⊢
      rw [cleanLoop_resolveElement fuel e ('/' :: ['/'].intercalate (e2 :: t2)) p hs
        (Or.inr rfl) hp hf]
      rw [cleanLoop_separator _ _ _ _ (le_refl _)]
      rw [ih _ (resolveElement p e) (List.cons_ne_nil _ _)
        (fun x hx => hes x (List.mem_cons_of_mem _ hx)) (resolveElement_real p e hs hp)
        (le_refl _)]
      rfl

theorem cleanBuffer_ne_nil (p : List (List Char)) : cleanBuffer p ≠ [] := by
  cases p with
  | nil => simp [cleanBuffer]
  | cons e t => simp [cleanBuffer, renderDirs]

theorem mountPathDirs_real : ∀ x ∈ mountPathDirs, x ≠ [] ∧ '/' ∉ x := by
  decide

/-- The directories a name resolves to are real path elements. -/
theorem resolveName_real (name : String) : ∀ x ∈ resolveName name, x ≠ [] ∧ '/' ∉ x := by
  have step : ∀ (es : List (List Char)) (p : List (List Char)), (∀ e ∈ es, '/' ∉ e) →
      (∀ x ∈ p, x ≠ [] ∧ '/' ∉ x) → ∀ x ∈ es.foldl resolveElement p, x ≠ [] ∧ '/' ∉ x := by
    intro es
    induction es with
    | nil => intro p _ hp; exact hp
    | cons e t ih =>
      intro p hes hp
      exact ih (resolveElement p e) (fun x hx => hes x (List.mem_cons_of_mem _ hx))
        (resolveElement_real p e (hes e (List.mem_cons_self _ _)) hp)
  exact step _ _ (pathElements_no_separator _) mountPathDirs_real

/-- The mount path of any name is the path of the directory the name resolves to
from the base directory. -/
theorem mountpoint_resolve (d : isiDriver) (name : String) :
    (d.mountpoint name).data = (cleanBuffer (resolveName name)).reverse := by
  have hdata : (mountPath ++ "/" ++ name).data =
      '/' :: (['/'].intercalate ["var".data, "lib".data, "isilon".data, "volumes".data] ++
        ('/' :: '/' :: name.data)) := by
    rw [String.data_append, String.data_append]
    rfl
  have hbase : ∀ e ∈ ["var".data, "lib".data, "isilon".data, "volumes".data],
      e ≠ [] ∧ '/' ∉ e ∧ e ≠ ['.'] ∧ e ≠ ['.', '.'] := by decide
  have hloop := cleanLoop_elements ["var".data, "lib".data, "isilon".data, "volumes".data]
    ((mountPath ++ "/" ++ name).data.length) ('/' :: '/' :: name.data) ['/'] 1
    (by simp) hbase (Or.inr rfl) (by rw [hdata]; simp)
  have hbuf : (['/'].intercalate ["var".data, "lib".data, "isilon".data,
      "volumes".data]).reverse ++ (if ['/'].length ≠ 1 then '/' :: ['/'] else ['/']) =
      cleanBuffer mountPathDirs := by decide
  have hres := cleanLoop_resolve (pathElements name.data) name.data.length mountPathDirs
    (pathElements_ne_nil _) (pathElements_no_separator _) mountPathDirs_real
    (by rw [pathElements_intercalate])
  rw [pathElements_intercalate] at hres
  rw [hbuf, cleanLoop_separator _ _ _ _ (le_refl _), cleanLoop_separator _ _ _ _ (le_refl _),
    hres] at hloop
  have hne : mountPath ≠ "" := by decide
  simp only [isiDriver.mountpoint, Join, hne, ne_eq, not_false_eq_true, if_true, Clean]
  rw [hdata]
  simp only [decide_True, if_true]
  rw [hdata] at hloop
  simp only [List.length_cons] at hloop ⊢
  rw [hloop]
  simp only [resolveName, cleanBuffer_ne_nil, if_false]

/-- Reading the first directory off a rendered path: when the text `b ++ x` starts
the text `r ++ y`, with `b` and `r` free of separators and a separator (or the end)
after each, then `b = r` and `x` starts `y`. -/
theorem element_prefix (b r x y : List Char) (hb : '/' ∉ b) (hr : '/' ∉ r)
    (hx : x.head? = some '/') (hy : y = [] ∨ y.head? = some '/')
    (h : b ++ x <+: r ++ y) : b = r ∧ x <+: y := by
  obtain ⟨t, ht⟩ := h
  have hxt : (x ++ t).head? = some '/' := by
    cases x with
    | nil => simp at hx
    | cons c x2 => simpa using hx
  obtain ⟨h1, h2⟩ := takeWhile_dropWhile_element b (x ++ t) hb (Or.inr hxt)
  obtain ⟨h3, h4⟩ := takeWhile_dropWhile_element r y hr hy
  rw [List.append_assoc] at ht
  rw [ht] at h1 h2
  exact ⟨h1.symm.trans h3, ⟨t, h2.symm.trans h4⟩⟩

theorem renderDirs_head (p : List (List Char)) :
    renderDirs p = [] ∨ (renderDirs p).head? = some '/' := by
  cases p with
  | nil => exact Or.inl rfl
  | cons e t => exact Or.inr rfl

/-- A rendered path that starts with the path of `b` and a separator has the
directories of `b` as its first directories, and more after them. -/
theorem renderDirs_prefix (b : List (List Char)) :
    ∀ (r : List (List Char)) (s : List Char), (∀ x ∈ b, '/' ∉ x) → (∀ x ∈ r, '/' ∉ x) →
      renderDirs b ++ '/' :: s <+: renderDirs r → b <+: r ∧ r ≠ b := by
  induction b with
  | nil =>
    intro r s _ _ h
    cases r with
    | nil =>
      obtain ⟨t, ht⟩ := h
      simp [renderDirs] at ht
    | cons e t => exact ⟨List.nil_prefix, List.cons_ne_nil _ _⟩
  | cons e t ih =>
    intro r s hb hr h
    cases r with
    | nil =>
      obtain ⟨u, hu⟩ := h
      simp [renderDirs] at hu
    | cons e2 t2 =>
      simp only [renderDirs, List.cons_append, List.append_assoc] at h
      have h1 : e ++ (renderDirs t ++ '/' :: s) <+: e2 ++ renderDirs t2 := by
        obtain ⟨u, hu⟩ := h
        simp only [List.cons_append, List.cons.injEq, true_and] at hu
        exact ⟨u, hu⟩
      have hx : (renderDirs t ++ '/' :: s).head? = some '/' := by
        rcases renderDirs_head t with h0 | h0
        · rw [h0]
          rfl
        · cases hrt : renderDirs t with
          | nil => rfl
          | cons c u =>
            rw [hrt] at h0
            simpa using h0
      obtain ⟨heq, hrest⟩ := element_prefix e e2 _ _ (hb e (List.mem_cons_self _ _))
        (hr e2 (List.mem_cons_self _ _)) hx (renderDirs_head t2) h1
      obtain ⟨hpre, hne⟩ := ih t2 s (fun x hx => hb x (List.mem_cons_of_mem _ hx))
        (fun x hx => hr x (List.mem_cons_of_mem _ hx)) hrest
      subst heq
      refine ⟨?_, ?_⟩
      · obtain ⟨u, hu⟩ := hpre
        exact ⟨u, by rw [List.cons_append, hu]⟩
      · intro h0
        exact hne (List.cons.inj h0).2

/-! ## The mount path -/

/-- C16, as stated, fails: the names `vol1` and `vol1/` are distinct and have the
same mount path, since `filepath.Join` cleans the joined path; so have `vol1` and
`./vol1`. -/
theorem C16_distinct_names_share_mount_path :
    "vol1" ≠ "vol1/" ∧
      (NewIsilonDriver "isilon").mountpoint "vol1" = "/var/lib/isilon/volumes/vol1" ∧
      (NewIsilonDriver "isilon").mountpoint "vol1/" = "/var/lib/isilon/volumes/vol1" ∧
      "vol1" ≠ "./vol1" ∧
      (NewIsilonDriver "isilon").mountpoint "./vol1" = "/var/lib/isilon/volumes/vol1" := by
  decide

/-- C16, amended: no two distinct plain names collide, a plain name being one
whose `/`-separated elements are all non-empty and different from `.` and `..`:
for plain names `a` and `b`, equal mount paths imply `a = b`; the mount path of
such a name is the base directory `/var/lib/isilon/volumes/` followed by the
name. -/
theorem C16_plain_names_have_distinct_mount_paths (d1 d2 : isiDriver) (a b : String)
    (ha : plainName a = true) (hb : plainName b = true)
    (h : d1.mountpoint a = d2.mountpoint b) :
    a = b ∧ d1.mountpoint a = mountPath ++ a := by
  refine ⟨?_, mountpoint_plain d1 a ha⟩
  rw [mountpoint_plain d1 a ha, mountpoint_plain d2 b hb] at h
  have hdata := congrArg String.data h
  rw [String.data_append, String.data_append] at hdata
  exact String.ext (List.append_cancel_left hdata)

/-- C16 amended, for the name `vol1` against itself. -/
theorem C16_plain_names_have_distinct_mount_paths_witness :
    "vol1" = "vol1" ∧ (NewIsilonDriver "isilon").mountpoint "vol1" = mountPath ++ "vol1" :=
  C16_plain_names_have_distinct_mount_paths (NewIsilonDriver "isilon")
    (NewIsilonDriver "isilon") "vol1" "vol1" (by decide) (by decide) (by decide)

/-- C17, as stated, fails: the mount path of the empty name is the base directory
itself, and those of `..` and `../../../etc` lie outside it; none has
`/var/lib/isilon/volumes/` at its start. -/
theorem C17_mount_path_can_leave_base_directory :
    (NewIsilonDriver "isilon").mountpoint "" = "/var/lib/isilon/volumes" ∧
      (NewIsilonDriver "isilon").mountpoint ".." = "/var/lib/isilon" ∧
      (NewIsilonDriver "isilon").mountpoint "../../../etc" = "/var/etc" ∧
      ¬ ("/var/lib/isilon/volumes/".data <+: ((NewIsilonDriver "isilon").mountpoint "").data) ∧
      ¬ ("/var/lib/isilon/volumes/".data <+: ((NewIsilonDriver "isilon").mountpoint "..").data) ∧
      ¬ ("/var/lib/isilon/volumes/".data <+:
        ((NewIsilonDriver "isilon").mountpoint "../../../etc").data) := by
  decide

/-- C17, amended: the mount path lies strictly inside the base directory exactly
for the names that resolve below it.  For every volume name, `mountpoint(name)`
has `/var/lib/isilon/volumes/` as a proper prefix if and only if resolving the
elements of the name one after the other from `/var/lib/isilon/volumes` (an empty
element and `.` stay, `..` goes up one directory, any other element goes down)
ends in a directory below `/var/lib/isilon/volumes`. -/
theorem C17_mount_path_inside_base_iff_name_resolves_below (d : isiDriver) (name : String) :
    belowMountPath name = true ↔
      ("/var/lib/isilon/volumes/".data <+: (d.mountpoint name).data ∧
        "/var/lib/isilon/volumes/".length < (d.mountpoint name).length) := by
  have hdata := mountpoint_resolve d name
  have hreal := resolveName_real name
  have hbase : "/var/lib/isilon/volumes/".data = renderDirs mountPathDirs ++ ['/'] := by decide
  have hlen : "/var/lib/isilon/volumes/".length = (renderDirs mountPathDirs).length + 1 := by
    decide
  have hstr : (d.mountpoint name).length = (d.mountpoint name).data.length := rfl
  rw [hbase, hlen, hstr, hdata]
  constructor
  · intro hb
    obtain ⟨⟨extra, hex⟩, hne⟩ := of_decide_eq_true hb
    cases extra with
    | nil =>
      rw [List.append_nil] at hex
      exact absurd hex.symm hne
    | cons e t =>
      have he : e ≠ [] := (hreal e (by rw [← hex]; simp)).1
      have hpos : 0 < e.length := List.length_pos.mpr he
      have hnil : resolveName name ≠ [] := by
        rw [← hex]
        simp [mountPathDirs]
      simp only [cleanBuffer, hnil, if_false, List.reverse_reverse]
      rw [← hex, renderDirs_append]
      refine ⟨⟨e ++ renderDirs t, by simp [renderDirs]⟩, ?_⟩
      simp only [renderDirs, List.length_append, List.length_cons]
      omega
  · rintro ⟨hpre, -⟩
    apply decide_eq_true
    by_cases hnil : resolveName name = []
    · rw [hnil] at hpre
      have := hpre.length_le
      simp [cleanBuffer, mountPathDirs, renderDirs] at this
    · simp only [cleanBuffer, hnil, if_false, List.reverse_reverse] at hpre
      exact renderDirs_prefix mountPathDirs (resolveName name) []
        (fun x hx => (mountPathDirs_real x hx).2) (fun x hx => (hreal x hx).2) hpre

/-- C17 amended, for the names `vol1/` and `a/../b`: they resolve below the base
directory, so their mount paths lie strictly inside it; the name `..` does not. -/
theorem C17_mount_path_inside_base_iff_name_resolves_below_witness :
    ("/var/lib/isilon/volumes/".data <+: ((NewIsilonDriver "isilon").mountpoint "vol1/").data ∧
        "/var/lib/isilon/volumes/".length <
          ((NewIsilonDriver "isilon").mountpoint "vol1/").length) ∧
      ("/var/lib/isilon/volumes/".data <+:
          ((NewIsilonDriver "isilon").mountpoint "a/../b").data ∧
        "/var/lib/isilon/volumes/".length <
          ((NewIsilonDriver "isilon").mountpoint "a/../b").length) ∧
      ¬ ("/var/lib/isilon/volumes/".data <+: ((NewIsilonDriver "isilon").mountpoint "..").data ∧
        "/var/lib/isilon/volumes/".length <
          ((NewIsilonDriver "isilon").mountpoint "..").length) :=
  ⟨(C17_mount_path_inside_base_iff_name_resolves_below (NewIsilonDriver "isilon") "vol1/").mp
      (by decide),
    (C17_mount_path_inside_base_iff_name_resolves_below (NewIsilonDriver "isilon") "a/../b").mp
      (by decide),
    fun h => absurd
      ((C17_mount_path_inside_base_iff_name_resolves_below (NewIsilonDriver "isilon") "..").mpr h)
      (by decide)⟩

/-! ## `Path` -/

/-- A successful `Mount` answers the mount path of the name. -/
theorem Mount_ok_mountpoint (d : isiDriver) (name : String) (o : Outcomes)
    (hok : (d.Mount ⟨name⟩ o).resp.Err = "") :
    (d.Mount ⟨name⟩ o).resp.Mountpoint = d.mountpoint name := by
  have fresh : d.Mount ⟨name⟩ o = d.mountFresh ⟨name⟩ o →
      (d.Mount ⟨name⟩ o).resp.Mountpoint = d.mountpoint name := by
    intro hfresh
    rw [hfresh] at hok ⊢
    rcases mountFresh_cases d ⟨name⟩ o with hf | ⟨calls, _, hf⟩
    · exact absurd hok hf.1
    · rw [hf]
  cases hreg : mapIndex d.volumes (d.mountpoint name) with
  | none => exact fresh (Mount_miss_none d name o hreg)
  | some v =>
    by_cases hc : 0 < v.connections.val
    · rw [Mount_hit d name o v hreg hc]
    · exact fresh (Mount_miss_zero d name o v hreg (not_lt.mp hc))

/-- C18: `Path` is a pure lookup.  For every registry and name it answers the
mount path of the name with an empty error, makes no external call and leaves the
driver state unchanged; its response is the same in any two driver states; and
after a successful `Mount` of the name, the mount path `Mount` answered is the one
`Path` answers. -/
theorem C18_path_is_pure_lookup (d d2 : isiDriver) (name : String) (o : Outcomes) :
    d.Path ⟨name⟩ = ⟨{ Mountpoint := d.mountpoint name, Err := "" }, d, []⟩ ∧
      (d.Path ⟨name⟩).resp = (d2.Path ⟨name⟩).resp ∧
      ((d.Mount ⟨name⟩ o).resp.Err = "" →
        (d.Mount ⟨name⟩ o).resp.Mountpoint =
          ((d.Mount ⟨name⟩ o).d.Path ⟨name⟩).resp.Mountpoint) :=
  ⟨rfl, rfl, fun hok => Mount_ok_mountpoint d name o hok⟩

/-- C18 for `vol1`: a new driver against one that holds `vol1` mounted, and the
path a successful `Mount` answers. -/
theorem C18_path_is_pure_lookup_witness :
    (NewIsilonDriver "isilon").Path ⟨"vol1"⟩ =
        ⟨{ Mountpoint := "/var/lib/isilon/volumes/vol1" }, NewIsilonDriver "isilon", []⟩ ∧
      ((NewIsilonDriver "isilon").Mount ⟨"vol1"⟩ outcomesOk).resp.Mountpoint =
        (((NewIsilonDriver "isilon").Mount ⟨"vol1"⟩ outcomesOk).d.Path ⟨"vol1"⟩).resp.Mountpoint :=
  have h := C18_path_is_pure_lookup (NewIsilonDriver "isilon")
    ((NewIsilonDriver "isilon").Mount ⟨"vol1"⟩ outcomesOk).d "vol1" outcomesOk
  ⟨h.1.trans (by decide), h.2.2 (by decide)⟩

/-! ## The zero boundary -/

/-- C19: at the zero boundary the entry is kept and replaced.  For an entry with
`connections = 1`, an `Unmount` whose `umount` command succeeds is successful,
runs the `umount` command exactly once (its only external call) and leaves the
entry in the registry with `connections = 0`; for an entry with `connections = 0`,
a `Mount` whose filesystem inspection succeeds (`Lstat` finds a directory, or
reports that nothing exists and `MkdirAll` creates it) and whose `mount` command
succeeds is
successful, runs the `mount` command exactly once and replaces the entry with one
of `connections = 1`. -/
theorem C19_zero_count_entry_is_kept_then_replaced (d1 d2 : isiDriver) (name : String)
    (o1 o2 : Outcomes) (v1 v2 : volume)
    (h1 : mapIndex d1.volumes (d1.mountpoint name) = some v1) (hc1 : v1.connections.val = 1)
    (hu : o1.umountRun = none)
    (h2 : mapIndex d2.volumes (d2.mountpoint name) = some v2) (hc2 : v2.connections.val = 0)
    (hfs : o2.lstat = (some ⟨true⟩, none) ∨
      (∃ err, o2.lstat = (none, some err) ∧ err.notExist = true ∧ o2.mkdirAll = none))
    (hm : o2.mountRun = none) :
    (d1.Unmount ⟨name⟩ o1 =
        ⟨{}, ⟨d1.clusterPath,
            mapAssign d1.volumes (d1.mountpoint name) ⟨v1.name, GoInt.ofInt 0⟩⟩,
          [.UmountCmd (d1.mountpoint name)]⟩ ∧
        mapIndex (d1.Unmount ⟨name⟩ o1).d.volumes (d1.mountpoint name) =
          some ⟨v1.name, GoInt.ofInt 0⟩) ∧
      (d2.Mount ⟨name⟩ o2 =
        ⟨{ Mountpoint := d2.mountpoint name },
          ⟨d2.clusterPath,
            mapAssign d2.volumes (d2.mountpoint name) ⟨name, GoInt.ofInt 1⟩⟩,
          (match o2.lstat.2 with
            | none => [.Lstat (d2.mountpoint name)]
            | some _ => [.Lstat (d2.mountpoint name), .MkdirAll (d2.mountpoint name)]) ++
            [.MountCmd (d2.clusterPath ++ name) (d2.mountpoint name)]⟩ ∧
        (d2.Mount ⟨name⟩ o2).calls.filter Call.isMountCmd =
          [.MountCmd (d2.clusterPath ++ name) (d2.mountpoint name)] ∧
        mapIndex (d2.Mount ⟨name⟩ o2).d.volumes (d2.mountpoint name) =
          some ⟨name, GoInt.ofInt 1⟩) := by
  constructor
  · have hpred : v1.connections.pred = GoInt.ofInt 0 := by
      show GoInt.ofInt (v1.connections.val - 1) = GoInt.ofInt 0
      rw [hc1]
      rfl
    have hun : d1.Unmount ⟨name⟩ o1 =
        ⟨{}, ⟨d1.clusterPath,
            mapAssign d1.volumes (d1.mountpoint name) ⟨v1.name, GoInt.ofInt 0⟩⟩,
          [.UmountCmd (d1.mountpoint name)]⟩ := by
      simp only [isiDriver.Unmount, h1, hc1, hu, if_true, hpred]
    refine ⟨hun, ?_⟩
    rw [hun]
    exact mapIndex_mapAssign_same _ _ _
  · have hmount := mountFresh_success d2 ⟨name⟩ o2 hfs hm
    rw [← Mount_miss_zero d2 name o2 v2 h2 (le_of_eq hc2)] at hmount
    refine ⟨hmount, ?_, ?_⟩
    · rw [hmount]
      simp only
      split <;> rfl
    · rw [hmount]
      exact mapIndex_mapAssign_same _ _ _

/-- C19 for `vol1` mounted once: the `Unmount` leaves count 0; and for `vol1` at
count 0 with no directory at the mount path: the next `Mount` creates it and
mounts again. -/
theorem C19_zero_count_entry_is_kept_then_replaced_witness :
    mapIndex (((NewIsilonDriver "isilon").Mount ⟨"vol1"⟩ outcomesOk).d.Unmount ⟨"vol1"⟩
        outcomesOk).d.volumes
        (((NewIsilonDriver "isilon").Mount ⟨"vol1"⟩ outcomesOk).d.mountpoint "vol1") =
        some ⟨(volume.mk "vol1" (GoInt.ofInt 1)).name, GoInt.ofInt 0⟩ ∧
      ((isiDriver.mk "isilon:/ifs/data/docker/volumes/"
          [("/var/lib/isilon/volumes/vol1", ⟨"vol1", GoInt.ofInt 0⟩)]).Mount ⟨"vol1"⟩
          { outcomesOk with lstat := (none, some ⟨"lstat", "/var/lib/isilon/volumes/vol1",
              "no such file or directory", true⟩) }).calls.filter Call.isMountCmd =
        [.MountCmd ((isiDriver.mk "isilon:/ifs/data/docker/volumes/"
            [("/var/lib/isilon/volumes/vol1", ⟨"vol1", GoInt.ofInt 0⟩)]).clusterPath ++ "vol1")
          ((isiDriver.mk "isilon:/ifs/data/docker/volumes/"
            [("/var/lib/isilon/volumes/vol1", ⟨"vol1", GoInt.ofInt 0⟩)]).mountpoint "vol1")] ∧
      mapIndex ((isiDriver.mk "isilon:/ifs/data/docker/volumes/"
          [("/var/lib/isilon/volumes/vol1", ⟨"vol1", GoInt.ofInt 0⟩)]).Mount ⟨"vol1"⟩
          { outcomesOk with lstat := (none, some ⟨"lstat", "/var/lib/isilon/volumes/vol1",
              "no such file or directory", true⟩) }).d.volumes
          ((isiDriver.mk "isilon:/ifs/data/docker/volumes/"
            [("/var/lib/isilon/volumes/vol1", ⟨"vol1", GoInt.ofInt 0⟩)]).mountpoint "vol1") =
          some ⟨"vol1", GoInt.ofInt 1⟩ :=
  have h := C19_zero_count_entry_is_kept_then_replaced
    ((NewIsilonDriver "isilon").Mount ⟨"vol1"⟩ outcomesOk).d
    (isiDriver.mk "isilon:/ifs/data/docker/volumes/"
      [("/var/lib/isilon/volumes/vol1", ⟨"vol1", GoInt.ofInt 0⟩)])
    "vol1" outcomesOk
    { outcomesOk with lstat := (none, some ⟨"lstat", "/var/lib/isilon/volumes/vol1",
        "no such file or directory", true⟩) }
    ⟨"vol1", GoInt.ofInt 1⟩ ⟨"vol1", GoInt.ofInt 0⟩
    (by decide) (by decide) (by decide) (by decide) (by decide)
    (Or.inr ⟨_, rfl, rfl, rfl⟩) (by decide)
  ⟨h.1.2, h.2.2.1, h.2.2.2⟩

/-! ## Independence of volumes -/

/-- The method `Create` never changes the driver state. -/
theorem Create_keeps_driver (d : isiDriver) (name : String) (o : Outcomes) :
    (d.Create ⟨name⟩ o).d = d := by
  unfold isiDriver.Create
  simp only
  cases mapIndex d.volumes (d.mountpoint name) with
  | some v => rfl
  | none =>
    rcases o.checkVolume with ⟨exist, cerr⟩
    cases cerr with
    | some e => rfl
    | none =>
      cases exist with
      | true => rfl
      | false => cases o.createVolume <;> rfl

/-- C20: a lifecycle call on one volume never touches another volume's state.
For every driver state, every call (`Create`, `Mount`, `Unmount`, `Remove` or
`Path` on a name `n`, with any outcome of the external calls) and every key other
than the mount path of `n`, the lookup at that key is the same after the call as
before it: an entry there is kept with its name and connections, and no entry is
added there. -/
theorem C20_other_volumes_untouched (d : isiDriver) (i : Invocation) (k : String)
    (hk : k ≠ d.mountpoint i.name) :
    mapIndex (d.step i).d.volumes k = mapIndex d.volumes k := by
  obtain ⟨op, name, o⟩ := i
  have fresh : mapIndex (d.mountFresh ⟨name⟩ o).d.volumes k = mapIndex d.volumes k := by
    rcases mountFresh_cases d ⟨name⟩ o with hf | ⟨calls, _, hf⟩
    · rw [hf.2]
    · rw [hf]
      exact mapIndex_mapAssign_other _ _ _ _ hk
  cases op with
  | Create =>
    have hd : (d.Create ⟨name⟩ o).d = d := Create_keeps_driver d name o
    simp only [isiDriver.step, hd]
  | Remove =>
    simp only [isiDriver.step]
    cases hreg : mapIndex d.volumes (d.mountpoint name) with
    | none => simp only [isiDriver.Remove, hreg]
    | some v =>
      by_cases hc : 1 < v.connections.val
      · rw [Remove_in_use d name o v hreg hc]
      · rw [(Remove_not_shared d name o v hreg (not_lt.mp hc)).1]
        exact mapIndex_mapDelete_other _ _ _ hk
  | Path => rfl
  | Mount =>
    simp only [isiDriver.step]
    cases hreg : mapIndex d.volumes (d.mountpoint name) with
    | none =>
      rw [Mount_miss_none d name o hreg]
      exact fresh
    | some v =>
      by_cases hc : 0 < v.connections.val
      · rw [Mount_hit d name o v hreg hc]
        exact mapIndex_mapAssign_other _ _ _ _ hk
      · rw [Mount_miss_zero d name o v hreg (not_lt.mp hc)]
        exact fresh
  | Unmount =>
    simp only [isiDriver.step]
    cases hreg : mapIndex d.volumes (d.mountpoint name) with
    | none => rw [Unmount_absent d name o hreg]
    | some v =>
      by_cases hc : v.connections.val = 1
      · cases hrun : o.umountRun with
        | some e => simp only [isiDriver.Unmount, hreg, hc, hrun, if_true]
        | none =>
          simp only [isiDriver.Unmount, hreg, hc, hrun, if_true]
          exact mapIndex_mapAssign_other _ _ _ _ hk
      · simp only [isiDriver.Unmount, hreg, hc, if_false]
        exact mapIndex_mapAssign_other _ _ _ _ hk

/-- C20 for a `Remove` of `vol1` while `vol2` is mounted: the entry of `vol2`
stays. -/
theorem C20_other_volumes_untouched_witness :
    mapIndex (((NewIsilonDriver "isilon").run
        [⟨.Mount, "vol1", outcomesOk⟩, ⟨.Mount, "vol2", outcomesOk⟩]).d.step
          ⟨.Remove, "vol1", outcomesOk⟩).d.volumes "/var/lib/isilon/volumes/vol2" =
      mapIndex ((NewIsilonDriver "isilon").run
        [⟨.Mount, "vol1", outcomesOk⟩, ⟨.Mount, "vol2", outcomesOk⟩]).d.volumes
        "/var/lib/isilon/volumes/vol2" :=
  C20_other_volumes_untouched _ ⟨.Remove, "vol1", outcomesOk⟩ "/var/lib/isilon/volumes/vol2"
    (by decide)

end IsilonDriver
